import Mathlib

/-!
Verification development for the `IPRateMonitor` element
(`src/elements/ip/ipratemon.cc`).

The monitor keeps a 256-fan-out prefix tree of `Counter`s (each holding a
forward and a reverse EWMA), an age-list threading the allocated `Stats`
nodes, and a byte count `_alloced_mem` checked against `_memmax`.

Two embeddings are used:

* a pointer-free inductive tree (`CounterT`/`StatsT`) for the purely
  tree-shaped operation `IPRateMonitor::print` and the `look` handler;
* an arena model (`Monitor`, nodes addressed by natural-number handles,
  as the repository design notes themselves suggest) for the operations
  that also touch the age-list and the memory accounting: the `Stats`
  constructor and destructor, `make_counter`, `fold`, `forced_fold`,
  `configure`, the write handlers, and the packet path.

Code of the repository that is not under `src/` (the header
`ipratemon.hh`, `ewma.{cc,hh}`, `confparse.{cc,hh}`) is modelled from the
specification; each such definition carries a doc comment starting with
`Modelled from the spec:`.
-/

set_option autoImplicit false

namespace RateMon

/-- Modelled from the spec: size in bytes of a `Counter` object. The exact
value of `sizeof(Counter)` is compiler dependent; the model fixes a
positive constant. -/
def szCounter : Nat := 40

/-- Modelled from the spec: size in bytes of a `Stats` node (256 counter
slots plus linkage), `sizeof(Stats)`. The model fixes a positive constant
larger than `szCounter`. -/
def szStats : Nat := 1064

/-- Modelled from the spec: the minimum memory cap in KiB, `MEMMAX_MIN`
from the missing header `ipratemon.hh`. The spec only says a nonzero
`memmax` is rounded up to this minimum; the model fixes 100 KiB, which is
at least `szStats` bytes as the code requires to hold the root. -/
def MEMMAX_MIN : Nat := 100

/-- Fan-out of a `Stats` node, `MAX_COUNTERS` in the source. -/
def MAX_COUNTERS : Nat := 256

/-- Modelled from the spec: numerator of the EWMA decay factor alpha.
The averaging recurrence is fixed-point; `ewma.cc` is not under `src/`,
so the model fixes alpha = 3/4. -/
def alphaNum : Nat := 3

/-- Modelled from the spec: denominator of the EWMA decay factor alpha. -/
def alphaDen : Nat := 4

/-- Modelled from the spec: the EWMA tick frequency `freq()` (ticks per
second), a host constant. -/
def ewmaFreqV : Nat := 100

/-- Modelled from the spec: the EWMA fixed-point reporting scale, the
`scale` member read by `print`. -/
def ewmaScaleV : Nat := 2

/-- Modelled from the spec: the EWMA state, a scaled integer running
average plus the tick of the last update (`ewma.{cc,hh}` is not under
`src/`). -/
structure MyEWMA where
  avg : Nat
  last : Nat
deriving DecidableEq, Repr

/-- Modelled from the spec: one zero-sample decay step, `a * alpha` in
fixed point. -/
def decayOnce (a : Nat) : Nat := a * alphaNum / alphaDen

/-- Iterated zero-sample decay. -/
def decayIter : Nat → Nat → Nat
  | 0, a => a
  | k + 1, a => decayIter k (decayOnce a)

/-- Modelled from the spec: `update(t, x)` advances the average from the
last tick to `t` by inserting zeros for the elapsed ticks in
`[t0+1, t)`, then folds the sample: `a := a * alpha + x * (1 - alpha)`
in fixed point. Note that an update at the same tick still applies the
folding step, so a zero sample decays the average even when no time has
passed. -/
def MyEWMA.update (e : MyEWMA) (now val : Nat) : MyEWMA :=
  let aged := decayIter (now - e.last - 1) e.avg
  { avg := (aged * alphaNum + val * (alphaDen - alphaNum)) / alphaDen, last := now }

/-- Modelled from the spec: `average()` reports the scaled running value. -/
def MyEWMA.average (e : MyEWMA) : Nat := e.avg

/-- Modelled from the spec: `initialize()` clears the average. -/
def ewmaInit : MyEWMA := ⟨0, 0⟩

/-- Modelled from the spec: `cp_unparse_real` from the host framework
(`confparse.cc` is not under `src/`), rendering of a fixed-point value at
a given bit scale as a decimal string. -/
def cpUnparseReal (v s : Nat) : String :=
  toString (v / 2 ^ s) ++ "." ++ toString (v % 2 ^ s * 1000000 / 2 ^ s)

/-! ## Tree embedding for `print` and the `look` handler

`IPRateMonitor::print` walks the counter tree only: pointer identity,
the age-list and the memory accounting play no role, so it is embedded
over an inductive tree. The 256 slots of a node are an association list
sorted by slot index; the source loop `for i in 0..255 if counter[i]`
visits exactly the present slots in ascending index order, which is the
list order here. -/

mutual
inductive CounterT : Type where
  | mk (fwd_rate rev_rate : MyEWMA) (next_level : Option StatsT) (anno_this : Nat)
inductive StatsT : Type where
  | mk (slots : List (Nat × CounterT))
end

def CounterT.fwd : CounterT → MyEWMA
  | .mk f _ _ _ => f

def CounterT.rev : CounterT → MyEWMA
  | .mk _ r _ _ => r

def CounterT.child : CounterT → Option StatsT
  | .mk _ _ c _ => c

/-- One dump line of `print` for a counter named `this_ip`, built from
the already-updated rates: dotted prefix, tab, forward average times
frequency, tab, reverse average times frequency, newline. -/
def printLine (this_ip : String) (fwd2 rev2 : MyEWMA) : String :=
  this_ip ++ "\t" ++ cpUnparseReal (fwd2.average * ewmaFreqV) ewmaScaleV
    ++ "\t" ++ cpUnparseReal (rev2.average * ewmaFreqV) ewmaScaleV ++ "\n"

/-- Dotted name of slot `i` under prefix `ip`; the source tests `if (ip)`,
which is false exactly for the empty string. -/
def slotName (ip : String) (i : Nat) : String :=
  if ip = "" then toString i else ip ++ "." ++ toString i

mutual
/-- Embedding of `IPRateMonitor::print` (ipratemon.cc lines 299-332) on a
`Stats` node: returns the dump string and the node after the EWMA
updates `print` performs. -/
def printStats (now : Nat) (s : StatsT) (ip : String) : String × StatsT :=
  match s with
  | .mk slots =>
    let p := printSlots now slots ip
    (p.1, .mk p.2)

/-- The slot loop of `IPRateMonitor::print`: for each present counter
whose reverse or forward average is positive, emit its line (after aging
both rates with a zero sample at the current tick) and recurse into its
child with a prefix extended by one tab. -/
def printSlots (now : Nat) (l : List (Nat × CounterT)) (ip : String) :
    String × List (Nat × CounterT) :=
  match l with
  | [] => ("", [])
  | (i, c) :: rest =>
    match c with
    | .mk fwd rev child anno =>
      if rev.average > 0 ∨ fwd.average > 0 then
        let this_ip := slotName ip i
        let fwd2 := fwd.update now 0
        let rev2 := rev.update now 0
        let line := printLine this_ip fwd2 rev2
        let pc : String × Option StatsT :=
          match child with
          | some t =>
            let q := printStats now t ("\t" ++ this_ip)
            (q.1, some q.2)
          | none => ("", none)
        let pr := printSlots now rest ip
        (line ++ pc.1 ++ pr.1, (i, .mk fwd2 rev2 pc.2 anno) :: pr.2)
      else
        let pr := printSlots now rest ip
        (pr.1, (i, c) :: pr.2)
end

/-- Embedding of `IPRateMonitor::look_read_handler` (ipratemon.cc lines
335-349) on the tree: seconds-since-reset line, then either the dump
(lock acquired) or the literal `unavailable`. -/
def lookT (resettime now : Nat) (lockFree : Bool) (s : StatsT) : String × StatsT :=
  let ret := toString (now - resettime) ++ "\n"
  if lockFree then
    let p := printStats now s ""
    (ret ++ p.1, p.2)
  else
    (ret ++ "unavailable\n", s)

/-- Concatenation of a list of dump lines. -/
def concatLines : List String → String
  | [] => ""
  | a :: l => a ++ concatLines l

theorem concatLines_append (xs ys : List String) :
    concatLines (xs ++ ys) = concatLines xs ++ concatLines ys := by
  induction xs with
  | nil => simp [concatLines]
  | cons a l ih => simp [concatLines, ih, String.append_assoc]

mutual
/-- Spec-side description of the dump, amended: the list of lines, one
for every counter with at least one non-zero EWMA average all of whose
ancestors also have a non-zero average, depth-first, slot order
ascending, each line formatted as in the spec (with the rates aged by a
zero sample at the current tick before being reported). -/
def dumpLines (now : Nat) (s : StatsT) (ip : String) : List String :=
  match s with
  | .mk slots => dumpLinesSlots now slots ip

def dumpLinesSlots (now : Nat) (l : List (Nat × CounterT)) (ip : String) : List String :=
  match l with
  | [] => []
  | (i, c) :: rest =>
    match c with
    | .mk fwd rev child _ =>
      if rev.average > 0 ∨ fwd.average > 0 then
        printLine (slotName ip i) (fwd.update now 0) (rev.update now 0)
          :: ((match child with
               | some t => dumpLines now t ("\t" ++ slotName ip i)
               | none => []) ++ dumpLinesSlots now rest ip)
      else
        dumpLinesSlots now rest ip
end

mutual
/-- The list of lines the claim as stated predicts: one line for every
counter in the tree with at least one non-zero EWMA average, including
counters whose ancestors have zero averages, depth-first, slot order
ascending. -/
def claimLines (now : Nat) (s : StatsT) (ip : String) : List String :=
  match s with
  | .mk slots => claimLinesSlots now slots ip

def claimLinesSlots (now : Nat) (l : List (Nat × CounterT)) (ip : String) : List String :=
  match l with
  | [] => []
  | (i, c) :: rest =>
    match c with
    | .mk fwd rev child _ =>
      (if rev.average > 0 ∨ fwd.average > 0 then
        [printLine (slotName ip i) (fwd.update now 0) (rev.update now 0)]
       else [])
        ++ (match child with
            | some t => claimLines now t ("\t" ++ slotName ip i)
            | none => [])
        ++ claimLinesSlots now rest ip
end

mutual
/-- Spec-side description of the state effect of `print`: every counter
it prints (non-zero average, reached through non-zero ancestors) has both
its forward and reverse EWMA updated with sample 0 at the current tick;
every other field and every other counter is unchanged. -/
def agedStats (now : Nat) (s : StatsT) : StatsT :=
  match s with
  | .mk slots => .mk (agedSlots now slots)

def agedSlots (now : Nat) : List (Nat × CounterT) → List (Nat × CounterT)
  | [] => []
  | (i, c) :: rest =>
    match c with
    | .mk fwd rev child anno =>
      if rev.average > 0 ∨ fwd.average > 0 then
        (i, .mk (fwd.update now 0) (rev.update now 0)
              (match child with
               | some t => some (agedStats now t)
               | none => none) anno) :: agedSlots now rest
      else
        (i, c) :: agedSlots now rest
end

mutual
theorem printStats_fst (now : Nat) (s : StatsT) (ip : String) :
    (printStats now s ip).1 = concatLines (dumpLines now s ip) := by
  cases s with
  | mk slots =>
    rw [printStats.eq_def, dumpLines.eq_def]
    simp [printSlots_fst now slots ip]
termination_by sizeOf s
decreasing_by all_goals (simp_wf <;> omega)

theorem printSlots_fst (now : Nat) (l : List (Nat × CounterT)) (ip : String) :
    (printSlots now l ip).1 = concatLines (dumpLinesSlots now l ip) := by
  cases l with
  | nil =>
    rw [printSlots.eq_def, dumpLinesSlots.eq_def]
    simp [concatLines]
  | cons hd rest =>
    obtain ⟨i, c⟩ := hd
    cases c with
    | mk fwd rev child anno =>
      rw [printSlots.eq_def, dumpLinesSlots.eq_def]
      simp only
      by_cases h : rev.average > 0 ∨ fwd.average > 0
      · simp only [if_pos h]
        cases child with
        | some t =>
          simp [printStats_fst now t, printSlots_fst now rest ip, concatLines,
            concatLines_append, String.append_assoc]
        | none =>
          simp [printSlots_fst now rest ip, concatLines, String.append_assoc]
      · simp [if_neg h, printSlots_fst now rest ip]
termination_by sizeOf l
decreasing_by all_goals (simp_wf <;> omega)
end

mutual
theorem printStats_snd (now : Nat) (s : StatsT) (ip : String) :
    (printStats now s ip).2 = agedStats now s := by
  cases s with
  | mk slots =>
    rw [printStats.eq_def, agedStats.eq_def]
    simp [printSlots_snd now slots ip]
termination_by sizeOf s
decreasing_by all_goals (simp_wf <;> omega)

theorem printSlots_snd (now : Nat) (l : List (Nat × CounterT)) (ip : String) :
    (printSlots now l ip).2 = agedSlots now l := by
  cases l with
  | nil =>
    rw [printSlots.eq_def, agedSlots.eq_def]
  | cons hd rest =>
    obtain ⟨i, c⟩ := hd
    cases c with
    | mk fwd rev child anno =>
      rw [printSlots.eq_def, agedSlots.eq_def]
      simp only
      by_cases h : rev.average > 0 ∨ fwd.average > 0
      · simp only [if_pos h]
        cases child with
        | some t =>
          simp [printStats_snd now t, printSlots_snd now rest ip]
        | none =>
          simp [printSlots_snd now rest ip]
      · simp [if_neg h, printSlots_snd now rest ip]
termination_by sizeOf l
decreasing_by all_goals (simp_wf <;> omega)
end

/-! ### Claims C9 and C10 -/

/-- Concrete counter with a non-zero forward average, sitting below a
zero-average ancestor in `exTree`. -/
def exChildCounter : CounterT := .mk ⟨8, 0⟩ ⟨0, 0⟩ none 0

/-- A one-slot node holding `exChildCounter` at slot 2. -/
def exChildStats : StatsT := .mk [(2, exChildCounter)]

/-- Root-level counter with both averages zero whose child holds
`exChildCounter`. -/
def exRootCounter : CounterT := .mk ⟨0, 0⟩ ⟨0, 0⟩ (some exChildStats) 0

/-- Tree whose only non-zero counter lies beneath a zero-average
counter. -/
def exTree : StatsT := .mk [(1, exRootCounter)]

/-- Claim C9, counterexample: the claim says the dump contains one line
for every counter with a non-zero EWMA average, including counters whose
ancestors have zero averages. In `exTree` the counter at slot 2 of the
child node has forward average 8 > 0, so the claim predicts a line for it
(`claimLines` is non-empty), yet the dump produced by the `look` handler
is empty: `print` never recurses below a counter whose two averages are
zero (ipratemon.cc line 309 guards both the line and the recursion). -/
theorem claim9_counterexample :
    exChildCounter.fwd.average > 0 ∧
    claimLines 5 exTree "" ≠ [] ∧
    (lookT 0 5 true exTree).1 = "5\n" :=
  ⟨by decide, by decide, by decide⟩

/-- Claim C9, amended: the dump produced by the `look` read handler
contains one line for every counter with at least one non-zero EWMA
average all of whose ancestors also have at least one non-zero average
(counters beneath a zero-average counter are omitted), emitted
depth-first in ascending slot order, each line being the dotted prefix,
the fwd average times freq and the rev average times freq (both aged by
a zero sample at the current tick first), tab-separated, with one
additional leading tab per depth increment. -/
theorem claim9_amended_dump (now : Nat) (s : StatsT) (ip : String) :
    (printStats now s ip).1 = concatLines (dumpLines now s ip) :=
  printStats_fst now s ip

/-- Claim C10: when the `look` read handler acquires the lock it is not a
pure read: the state it leaves behind is exactly the tree in which every
counter it prints has both its fwd and rev EWMA updated with sample 0 at
the current tick, and nothing else (no other counter and no other field)
is modified. -/
theorem claim10_look_ages_printed_counters (resettime now : Nat) (s : StatsT) :
    (lookT resettime now true s).2 = agedStats now s := by
  rw [lookT]
  simp [printStats_snd now s]

/-! ## Arena model of the monitor

Nodes are addressed by natural-number handles in an arena, the
representation the repository design notes themselves propose for the
overlapping tree / age-list structure. A `Counter` lives in a slot of its
owning node and is identified by the pair (node handle, slot index). -/

structure Counter where
  fwd_rate : MyEWMA
  rev_rate : MyEWMA
  next_level : Option Nat
  anno_this : Nat
deriving DecidableEq, Repr

structure StatsNode where
  parent : Option (Nat × Nat)
  prev : Option Nat
  next : Option Nat
  counter : Nat → Option Counter

structure Monitor where
  count_packets : Bool
  offset : Nat
  thresh : Nat
  memmax : Nat
  ratio : Nat
  anno_packets : Bool
  base : Option Nat
  alloced_mem : Int
  first : Option Nat
  last : Option Nat
  prev_deleted : Option Nat
  next_deleted : Option Nat
  resettime : Nat
  arena : Nat → Option StatsNode
  fresh : Nat

/-- The constructor state, `IPRateMonitor::IPRateMonitor` (ipratemon.cc
lines 24-29). -/
def init0 : Monitor :=
  { count_packets := true, offset := 0, thresh := 1, memmax := 0, ratio := 1,
    anno_packets := true, base := none, alloced_mem := 0, first := none,
    last := none, prev_deleted := none, next_deleted := none, resettime := 0,
    arena := fun _ => none, fresh := 0 }

def setNode (m : Monitor) (h : Nat) (n : StatsNode) : Monitor :=
  { m with arena := Function.update m.arena h (some n) }

def removeNode (m : Monitor) (h : Nat) : Monitor :=
  { m with arena := Function.update m.arena h none }

def getCounter (m : Monitor) (h i : Nat) : Option Counter :=
  match m.arena h with
  | some n => n.counter i
  | none => none

def setCounter (m : Monitor) (h i : Nat) (c : Option Counter) : Monitor :=
  match m.arena h with
  | some n => setNode m h { n with counter := Function.update n.counter i c }
  | none => m

def setNodeNext (m : Monitor) (h : Nat) (v : Option Nat) : Monitor :=
  match m.arena h with
  | some n => setNode m h { n with next := v }
  | none => m

def setNodePrev (m : Monitor) (h : Nat) (v : Option Nat) : Monitor :=
  match m.arena h with
  | some n => setNode m h { n with prev := v }
  | none => m

def setParent (m : Monitor) (h : Nat) (pc : Nat × Nat) : Monitor :=
  match m.arena h with
  | some n => setNode m h { n with parent := some pc }
  | none => m

/-- The accounting helper `update_alloced_mem` declared in the missing
header: adds a signed byte delta to `_alloced_mem`. -/
def update_alloced_mem (m : Monitor) (d : Int) : Monitor :=
  { m with alloced_mem := m.alloced_mem + d }

/-- Number of live nodes in the arena; used as recursion fuel where the
source recursion is bounded by the number of heap nodes. -/
def liveCount (m : Monitor) : Nat :=
  ((List.range m.fresh).filter (fun h => (m.arena h).isSome)).length

/-- Embedding of the `Stats` constructor (ipratemon.cc lines 235-244):
allocate a zeroed node (no parent, no age-list links, empty slots) at a
fresh handle and charge `sizeof(Stats)` to the accounting. -/
def newStats (m : Monitor) : Nat × Monitor :=
  let h := m.fresh
  (h, { m with alloced_mem := m.alloced_mem + (szStats : Int),
               arena := Function.update m.arena h
                 (some { parent := none, prev := none, next := none,
                         counter := fun _ => none }),
               fresh := h + 1 })

/-- Embedding of `IPRateMonitor::initialize` (ipratemon.cc lines 84-99):
record the reset time, allocate the root, and point `_first` and `_last`
at it, so the root starts the age-list. -/
def initializeOp (now : Nat) (m : Monitor) : Monitor :=
  let p := newStats { m with resettime := now }
  { p.2 with base := some p.1, first := some p.1, last := some p.1 }

/-- Embedding of `IPRateMonitor::make_counter` (ipratemon.cc lines
130-157): fail when a nonzero cap would be exceeded by one more
`Counter`; otherwise store a counter at the slot, seeded from the given
parent rates when present, and charge `sizeof(Counter)`. -/
def make_counter (m : Monitor) (sh idx : Nat) (fwd rev : Option MyEWMA) :
    Option Counter × Monitor :=
  if m.memmax ≠ 0 ∧ m.alloced_mem + (szCounter : Int) > (m.memmax : Int) then
    (none, m)
  else
    let c : Counter := { fwd_rate := fwd.getD ewmaInit, rev_rate := rev.getD ewmaInit,
                         next_level := none, anno_this := 0 }
    (some c, update_alloced_mem (setCounter m sh idx (some c)) (szCounter : Int))

/-- Untangling step of the `Stats` destructor (ipratemon.cc lines
267-287): splice the node out of the doubly-linked age-list, updating
`_first` / `_last` when it sits at an end, and publish the surviving
neighbors in `_prev_deleted` / `_next_deleted`. -/
def spliceRemove (m : Monitor) (h : Nat) : Monitor :=
  match m.arena h with
  | none => m
  | some n =>
    let m1 :=
      match n.prev with
      | some p =>
        { setNodeNext m p n.next with prev_deleted := some p }
      | none =>
        let ma := { m with first := n.next }
        let mb :=
          match n.next with
          | some q => setNodePrev ma q none
          | none => ma
        { mb with prev_deleted := none }
    match m1.arena h with
    | none => m1
    | some n1 =>
      match n1.next with
      | some q =>
        { setNodePrev m1 q n1.prev with next_deleted := some q }
      | none =>
        let ma := { m1 with last := n1.prev }
        let mb :=
          match n1.prev with
          | some p => setNodeNext ma p none
          | none => ma
        { mb with next_deleted := none }

/-- Clearing `this->_parent->next_level = 0` at the end of the `Stats`
destructor (ipratemon.cc lines 289-291). -/
def clearParentLink (m : Monitor) (h : Nat) : Monitor :=
  match m.arena h with
  | some n =>
    match n.parent with
    | some pc =>
      match getCounter m pc.1 pc.2 with
      | some c => setCounter m pc.1 pc.2 (some { c with next_level := none })
      | none => m
    | none => m
  | none => m

/-- The slot loop of the `Stats` destructor (ipratemon.cc lines
257-265): `delete counter[i]->next_level` (through the supplied
recursive destructor), `delete counter[i]`, uncharge `sizeof(Counter)`,
clear the slot. -/
def destroySlots (destroyChild : Monitor → Nat → Monitor) (h : Nat) :
    List Nat → Monitor → Monitor
  | [], m => m
  | i :: rest, m =>
    match getCounter m h i with
    | none => destroySlots destroyChild h rest m
    | some c =>
      let m1 :=
        match c.next_level with
        | some ch => destroyChild m ch
        | none => m
      let m2 := setCounter (update_alloced_mem m1 (-(szCounter : Int))) h i none
      destroySlots destroyChild h rest m2

/-- Embedding of the `Stats` destructor (ipratemon.cc lines 255-294):
destroy every slot (recursively destroying its child node first, then
uncharging the counter), splice out of the age-list, clear the owning
counter, uncharge `sizeof(Stats)` and free the node. The fuel bounds the
recursion depth; any fuel at least the number of live nodes is enough
for a well-formed heap. -/
def destroyStats : Nat → Monitor → Nat → Monitor
  | 0, m, _ => m
  | fuel + 1, m, h =>
    match m.arena h with
    | none => m
    | some _ =>
      let m1 := destroySlots (destroyStats fuel) h (List.range MAX_COUNTERS) m
      let m2 := spliceRemove m1 h
      let m3 := clearParentLink m2 h
      removeNode (update_alloced_mem m3 (-(szStats : Int))) h

/-- Reading the next node to visit in the fold traversal, the do-while
condition `s = (forward ? s->_next : s->_prev)` (ipratemon.cc line
215). -/
def advanceFrom (m : Monitor) (s : Nat) (forward : Bool) : Option Nat :=
  match m.arena s with
  | some n => if forward then n.next else n.prev
  | none => none

/-- One iteration of the fold loop body (ipratemon.cc lines 196-214) at
node `s`: skip the root (no parent); otherwise age the parent's fwd
rate, and only when its average is below the threshold also age the rev
rate; when both are below, destroy the node, stopping if memory dropped
below the target or no neighbor was published. Returns the state and
the next node to visit, if any. -/
def foldStep (m : Monitor) (s : Nat) (forward : Bool) (thresh : Int) (now : Nat)
    (memmaxEff : Int) : Monitor × Option Nat :=
  match m.arena s with
  | none => (m, none)
  | some n =>
    match n.parent with
    | none => (m, advanceFrom m s forward)
    | some pc =>
      match getCounter m pc.1 pc.2 with
      | none => (m, advanceFrom m s forward)
      | some c =>
        let fwd2 := c.fwd_rate.update now 0
        let c1 : Counter := { c with fwd_rate := fwd2 }
        let m1 := setCounter m pc.1 pc.2 (some c1)
        if (fwd2.average : Int) < thresh then
          let rev2 := c.rev_rate.update now 0
          let c2 : Counter := { c1 with rev_rate := rev2 }
          let m2 := setCounter m1 pc.1 pc.2 (some c2)
          if (rev2.average : Int) < thresh then
            let m3 := destroyStats (liveCount m2 + 1) m2 s
            if m3.alloced_mem < memmaxEff then (m3, none)
            else (m3, if forward then m3.next_deleted else m3.prev_deleted)
          else (m2, advanceFrom m2 s forward)
        else (m1, advanceFrom m1 s forward)

/-- The fold traversal loop, iterating `foldStep` while a next node is
available; the fuel bounds the number of iterations. -/
def foldGo : Nat → Monitor → Nat → Bool → Int → Nat → Int → Monitor
  | 0, m, _, _, _, _, _ => m
  | fuel + 1, m, s, forward, thresh, now, memmaxEff =>
    let p := foldStep m s forward thresh now memmaxEff
    match p.2 with
    | none => p.1
    | some s2 => foldGo fuel p.1 s2 forward thresh now memmaxEff

/-- Embedding of `IPRateMonitor::fold` (ipratemon.cc lines 183-216):
clear the published neighbors, compute the memory target (the cap, or
`0.9 * alloced` when uncapped), and traverse the age-list from `_first`
or `_last` according to the randomly drawn direction, which the model
takes as a parameter. -/
def fold (fuel : Nat) (forward : Bool) (now : Nat) (thresh : Int) (m : Monitor) : Monitor :=
  let m0 := { m with prev_deleted := none, next_deleted := none }
  let memmaxEff : Int :=
    if m0.memmax ≠ 0 then (m0.memmax : Int) else m0.alloced_mem * 9 / 10
  match (if forward then m0.first else m0.last) with
  | none => m0
  | some s => foldGo fuel m0 s forward thresh now memmaxEff

/-- The loop of `IPRateMonitor::forced_fold` (ipratemon.cc lines
159-167): while `_alloced_mem > _memmax`, call `fold` at the current
threshold and increase it by `perc`. The fuel bounds the number of
passes; `none` means the available fuel was exhausted with the bound
still exceeded (the source loops forever in that situation). -/
def forced_fold_loop : Nat → (Nat → Bool) → Nat → Int → Int → Monitor → Option Monitor
  | 0, _, _, _, _, m =>
    if m.alloced_mem > (m.memmax : Int) then none else some m
  | fuel + 1, dirs, now, thresh, perc, m =>
    if m.alloced_mem > (m.memmax : Int) then
      forced_fold_loop fuel dirs now (thresh + perc) perc
        (fold (2 * liveCount m + 2) (dirs fuel) now thresh m)
    else some m

/-- Embedding of `IPRateMonitor::forced_fold`: `perc` is the integer
part of `_thresh / 5.0` (`FOLD_INCREASE_FACTOR`), the schedule starts at
`_thresh`. `dirs` supplies the random direction of each pass. -/
def forced_fold (fuel : Nat) (dirs : Nat → Bool) (now : Nat) (m : Monitor) : Option Monitor :=
  forced_fold_loop fuel dirs now (m.thresh : Int) ((m.thresh : Int) / 5) m

/-! ## Configuration and handlers -/

/-- Modelled from the spec: one argument handed to the host
configuration parser, already typed. `cp_va_parse` is part of the host
framework (`confparse.cc` is not under `src/`); each element parser
accepts exactly its token type and stores the value into its target as
soon as it is parsed. -/
inductive CPToken where
  | word (s : String)
  | num (n : Nat)
  | fixed16 (n : Nat)
  | boolTok (b : Bool)
deriving DecidableEq, Repr

/-- Modelled from the spec: ASCII uppercase conversion of one character
(the host `String::upper`). -/
def upChar (ch : Char) : Char :=
  if 'a' ≤ ch ∧ ch ≤ 'z' then Char.ofNat (ch.toNat - 32) else ch

/-- Modelled from the spec: the `upper()` method of the host string
class, applied to the type keyword. -/
def upStr (s : String) : String := ⟨s.data.map upChar⟩

/-- Embedding of `IPRateMonitor::configure` (ipratemon.cc lines 48-82).
The interaction with `cp_va_parse` is modelled from the spec: the
argument pattern is word, unsigned, 16.16 nonnegative fixed-point,
unsigned, then optionally unsigned and bool; values are stored as they
are parsed, and a type mismatch or a wrong argument count fails with
the values parsed so far already stored. Before the parse the source
resets `_memmax` to 0 and `_anno_packets` to true (lines 52-53). After a
successful parse: the type keyword selects packet or byte counting (an
unknown keyword fails), a nonzero `memmax` is rounded up to `MEMMAX_MIN`
and scaled to bytes, a ratio above unity fails, and the threshold is
rescaled by the ratio. -/
def configure (m0 : Monitor) (conf : List CPToken) : Int × Monitor :=
  let m := { m0 with memmax := 0, anno_packets := true }
  match conf with
  | .word count_what :: rest1 =>
    match rest1 with
    | .num off :: rest2 =>
      let m := { m with offset := off }
      match rest2 with
      | .fixed16 r :: rest3 =>
        let m := { m with ratio := r }
        match rest3 with
        | .num th :: rest4 =>
          let m := { m with thresh := th }
          let parsedOpt : Option Monitor :=
            match rest4 with
            | [] => some m
            | [.num mm] => some { m with memmax := mm }
            | [.num mm, .boolTok b] =>
              some { { m with memmax := mm } with anno_packets := b }
            | .num mm :: _ => none
            | _ => none
          match parsedOpt with
          | none =>
            match rest4 with
            | .num mm :: _ => (-1, { m with memmax := mm })
            | _ => (-1, m)
          | some m =>
            let cmode : Option Bool :=
              if upStr count_what = "PACKETS" then some true
              else if upStr count_what = "BYTES" then some false
              else none
            match cmode with
            | none => (-1, m)
            | some cp =>
              let m := { m with count_packets := cp }
              let m := { m with memmax :=
                (if m.memmax ≠ 0 ∧ m.memmax < MEMMAX_MIN then MEMMAX_MIN
                 else m.memmax) * 1024 }
              if m.ratio > 0x10000 then (-1, m)
              else (0, { m with thresh := m.thresh * m.ratio >>> 16 })
        | _ => (-1, m)
      | _ => (-1, m)
    | _ => (-1, m)
  | _ => (-1, m)

/-- Modelled from the spec: what the monitor reads from a packet - the
four octets of the source and destination IPv4 addresses found at the
configured offset, and the IP total length used as the byte sample. -/
structure Packet where
  src : Nat → Nat
  dst : Nat → Nat
  len : Nat

/-- Modelled from the spec: a newly allocated node is spliced at the
tail of the age-list (`_last`). -/
def appendTail (m : Monitor) (h : Nat) : Monitor :=
  match m.last with
  | some l =>
    let m1 := setNodeNext m l (some h)
    let m2 := setNodePrev m1 h (some l)
    { m2 with last := some h }
  | none => { m with first := some h, last := some h }

/-- Modelled from the spec: the zoom-in decision of the descent. When
further depth remains, the counter has no child yet, one of its updated
averages exceeds the threshold, and the memory cap leaves room for one
more node, a child node is allocated, appended at the tail of the
age-list and linked to its owning counter. -/
def updateLevelsZoom (ks : List Nat) (m2 : Monitor) (sh : Nat) (addr : Nat → Nat)
    (k : Nat) (c1 : Counter) : Monitor :=
  if ks ≠ [] ∧ c1.next_level = none ∧
      (c1.fwd_rate.average > m2.thresh ∨ c1.rev_rate.average > m2.thresh) ∧
      (m2.memmax = 0 ∨ m2.alloced_mem + (szStats : Int) ≤ (m2.memmax : Int)) then
    let p := newStats m2
    let m4 := appendTail p.2 p.1
    let m5 := setParent m4 p.1 (sh, addr k)
    setCounter m5 sh (addr k) (some { c1 with next_level := some p.1 })
  else m2

/-- Modelled from the spec: the per-level work of the descent once the
slot counter is at hand: update the EWMA of the packet direction, stop
on an active annotation, decide zoom-in, and continue into the child
through `recurse` when one exists. -/
def updateLevelsBody (recurse : Monitor → Nat → Option (MyEWMA × MyEWMA) → Monitor)
    (ks : List Nat) (m1 : Monitor) (sh : Nat) (addr : Nat → Nat) (forward : Bool)
    (val now : Nat) (k : Nat) (c : Counter) : Monitor :=
  let c1 : Counter :=
    if forward then { c with fwd_rate := c.fwd_rate.update now val }
    else { c with rev_rate := c.rev_rate.update now val }
  let m2 := setCounter m1 sh (addr k) (some c1)
  if m2.anno_packets ∧ now < c1.anno_this then m2
  else
    let m3 := updateLevelsZoom ks m2 sh addr k c1
    match getCounter m3 sh (addr k) with
    | some c2 =>
      match c2.next_level with
      | some ch => recurse m3 ch (some (c2.fwd_rate, c2.rev_rate))
      | none => m3
    | none => m3

/-- Modelled from the spec: the descent of `update_rates` (declared in
the missing header `ipratemon.hh`) for one address. At each level the
slot counter is fetched or allocated through `make_counter` seeded from
the counter of the level above; a failed allocation stops the descent. -/
def updateLevels : List Nat → Monitor → Nat → (Nat → Nat) → Bool → Nat → Nat →
    Option (MyEWMA × MyEWMA) → Monitor
  | [], m, _, _, _, _, _, _ => m
  | k :: ks, m, sh, addr, forward, val, now, prates =>
    match getCounter m sh (addr k) with
    | some c =>
      updateLevelsBody (fun m3 ch pr2 => updateLevels ks m3 ch addr forward val now pr2)
        ks m sh addr forward val now k c
    | none =>
      match make_counter m sh (addr k) (prates.map (fun pr => pr.1))
          (prates.map (fun pr => pr.2)) with
      | (none, m1) => m1
      | (some c, m1) =>
        updateLevelsBody (fun m3 ch pr2 => updateLevels ks m3 ch addr forward val now pr2)
          ks m1 sh addr forward val now k c

/-- Modelled from the spec: `update_rates` selects the sample (1 for
packet counting, the IP length for byte counting) and descends once for
the source and once for the destination address; on an unsampled packet
(`do_ewma` false) no EWMA is updated and no node is allocated, so the
monitor state is unchanged. -/
def update_rates (m : Monitor) (p : Packet) (forward do_ewma : Bool) (now : Nat) : Monitor :=
  if do_ewma then
    let val := if m.count_packets then 1 else p.len
    match m.base with
    | some b =>
      let m1 := updateLevels [0, 1, 2, 3] m b p.src forward val now none
      updateLevels [0, 1, 2, 3] m1 b p.dst (!forward) val now none
    | none => m
  else m

/-- Embedding of `IPRateMonitor::push` (ipratemon.cc lines 109-118): the
sampling draw `(random() >> 5) & 0xffff <= _ratio` is a coin the model
takes as the parameter `ewmaSample`; the packet is then forwarded
unchanged. -/
def pushOp (m : Monitor) (p : Packet) (port0 ewmaSample : Bool) (now : Nat) : Monitor :=
  update_rates m p port0 ewmaSample now

/-- Embedding of `IPRateMonitor::pull` (ipratemon.cc lines 120-127):
every pulled packet is a sample. -/
def pullOp (m : Monitor) (p : Packet) (port0 : Bool) (now : Nat) : Monitor :=
  update_rates m p port0 true now

/-- The slot loop of `IPRateMonitor::reset_write_handler` (ipratemon.cc
lines 382-389): destroy each root slot's child subtree, then free the
slot counter; the source does not uncharge `sizeof(Counter)` for the
root slots it frees, and neither does the model. -/
def resetSlots : List Nat → Monitor → Monitor
  | [], m => m
  | i :: rest, m =>
    match m.base with
    | none => resetSlots rest m
    | some b =>
      match getCounter m b i with
      | none => resetSlots rest m
      | some c =>
        let m1 :=
          match c.next_level with
          | some ch => destroyStats (liveCount m + 1) m ch
          | none => m
        resetSlots rest (setCounter m1 b i none)

/-- Embedding of `IPRateMonitor::reset_write_handler` (ipratemon.cc
lines 372-397): clear every root slot under the lock and reset the
reset time (`set_resettime` is declared in the missing header; modelled
from the spec as recording the current tick). -/
def resetOp (now : Nat) (m : Monitor) : Monitor :=
  { resetSlots (List.range MAX_COUNTERS) m with resettime := now }

/-- Embedding of `IPRateMonitor::memmax_write_handler` (ipratemon.cc
lines 400-436): round a nonzero argument up to `MEMMAX_MIN` KiB, scale
to bytes, and when the new cap is nonzero and exceeded call
`forced_fold`; `none` reports that `forced_fold` did not return within
the given fuel. -/
def memmax_write (arg fuel : Nat) (dirs : Nat → Bool) (now : Nat) (m : Monitor) :
    Option Monitor :=
  let mm := if arg ≠ 0 ∧ arg < MEMMAX_MIN then MEMMAX_MIN else arg
  let m1 := { m with memmax := mm * 1024 }
  if m1.memmax ≠ 0 ∧ m1.alloced_mem > (m1.memmax : Int) then
    forced_fold fuel dirs now m1
  else some m1

/-- Modelled from the spec: the descent of `set_anno_level` (declared in
the missing header): walk to the counter at the requested level for the
address, allocating missing counters and child nodes subject to the
memory cap, and set its annotation deadline; a failed allocation stops
silently. -/
def annoLevelsBody (recurse : Monitor → Nat → Monitor) (m1 : Monitor) (sh : Nat)
    (addr : Nat → Nat) (level whenT k : Nat) (c : Counter) : Monitor :=
  if k = level then setCounter m1 sh (addr k) (some { c with anno_this := whenT })
  else
    let m2 :=
      if c.next_level = none ∧
          (m1.memmax = 0 ∨ m1.alloced_mem + (szStats : Int) ≤ (m1.memmax : Int)) then
        let p := newStats m1
        setCounter (setParent (appendTail p.2 p.1) p.1 (sh, addr k)) sh (addr k)
          (some { c with next_level := some p.1 })
      else m1
    match getCounter m2 sh (addr k) with
    | some c2 =>
      match c2.next_level with
      | some ch => recurse m2 ch
      | none => m2
    | none => m2

def annoLevels : List Nat → Nat → Monitor → Nat → (Nat → Nat) → Nat → Monitor
  | [], _, m, _, _, _ => m
  | k :: ks, level, m, sh, addr, whenT =>
    match getCounter m sh (addr k) with
    | some c =>
      annoLevelsBody (fun m2 ch => annoLevels ks level m2 ch addr whenT)
        m sh addr level whenT k c
    | none =>
      match make_counter m sh (addr k) none none with
      | (none, m1) => m1
      | (some c, m1) =>
        annoLevelsBody (fun m2 ch => annoLevels ks level m2 ch addr whenT)
          m1 sh addr level whenT k c

/-- Embedding of `IPRateMonitor::anno_level_write_handler` (ipratemon.cc
lines 439-481): validate the level (0..3) and expiry (at least 1
second), convert the expiry to an absolute tick, and run
`set_anno_level` under the lock. -/
def anno_level_write (m : Monitor) (addr : Nat → Nat) (level whenS now : Nat) :
    Int × Monitor :=
  if level < 4 ∧ 1 ≤ whenS then
    match m.base with
    | some b => (0, annoLevels [0, 1, 2, 3] level m b addr (whenS * ewmaFreqV + now))
    | none => (0, m)
  else (-1, m)

/-- The slot loop of the state effect of `print` on the arena. -/
def printArSlots (printChild : Monitor → Nat → Monitor) (now h : Nat) :
    List Nat → Monitor → Monitor
  | [], m => m
  | i :: rest, m =>
    match getCounter m h i with
    | none => printArSlots printChild now h rest m
    | some c =>
      if c.rev_rate.average > 0 ∨ c.fwd_rate.average > 0 then
        let c2 : Counter := { c with fwd_rate := c.fwd_rate.update now 0,
                                     rev_rate := c.rev_rate.update now 0 }
        let m1 := setCounter m h i (some c2)
        let m2 :=
          match c2.next_level with
          | some ch => printChild m1 ch
          | none => m1
        printArSlots printChild now h rest m2
      else
        printArSlots printChild now h rest m

/-- State effect of `IPRateMonitor::print` on the arena (the string it
builds does not touch the monitor): for every slot counter with a
positive average, age both rates and recurse into the child. Fuel bounds
the recursion depth. -/
def printAr : Nat → Nat → Monitor → Nat → Monitor
  | 0, _, m, _ => m
  | fuel + 1, now, m, h => printArSlots (printAr fuel now) now h (List.range MAX_COUNTERS) m

/-- Embedding of the state effect of `look_read_handler`: when the lock
attempt succeeds the tree is printed (aging the printed counters),
otherwise nothing changes. -/
def lookOp (m : Monitor) (lockFree : Bool) (now : Nat) : Monitor :=
  if lockFree then
    match m.base with
    | some b => printAr (liveCount m + 1) now m b
    | none => m
  else m

/-! ## Reachable states

The element lifecycle of the host: the element is constructed, then
configured (possibly repeatedly), then initialized, after which the
packet entry points and the handlers run in any order. The pure read
handlers (`thresh`, `mem`, `memmax`) do not change the state and need no
step. -/

inductive PreInit : Monitor → Prop where
  | start : PreInit init0
  | conf (m : Monitor) (args : List CPToken) :
      PreInit m → PreInit (configure m args).2

inductive Step : Monitor → Monitor → Prop where
  | push (m : Monitor) (p : Packet) (port0 ewmaSample : Bool) (now : Nat) :
      Step m (pushOp m p port0 ewmaSample now)
  | pull (m : Monitor) (p : Packet) (port0 : Bool) (now : Nat) :
      Step m (pullOp m p port0 now)
  | look (m : Monitor) (lockFree : Bool) (now : Nat) :
      Step m (lookOp m lockFree now)
  | reset (m : Monitor) (now : Nat) : Step m (resetOp now m)
  | memmaxW (m m2 : Monitor) (arg fuel : Nat) (dirs : Nat → Bool) (now : Nat) :
      memmax_write arg fuel dirs now m = some m2 → Step m m2
  | annoW (m : Monitor) (addr : Nat → Nat) (level whenS now : Nat) :
      Step m (anno_level_write m addr level whenS now).2

inductive Reachable : Monitor → Prop where
  | init (now : Nat) (m : Monitor) (args : List CPToken) :
      PreInit m → (configure m args).1 = 0 →
      Reachable (initializeOp now (configure m args).2)
  | step (m m2 : Monitor) : Reachable m → Step m m2 → Reachable m2

/-! ## Basic lemmas about the arena primitives -/

theorem setCounter_memmax (m : Monitor) (h i : Nat) (c : Option Counter) :
    (setCounter m h i c).memmax = m.memmax := by
  unfold setCounter setNode; cases m.arena h <;> rfl

theorem setCounter_alloced (m : Monitor) (h i : Nat) (c : Option Counter) :
    (setCounter m h i c).alloced_mem = m.alloced_mem := by
  unfold setCounter setNode; cases m.arena h <;> rfl

theorem setCounter_thresh (m : Monitor) (h i : Nat) (c : Option Counter) :
    (setCounter m h i c).thresh = m.thresh := by
  unfold setCounter setNode; cases m.arena h <;> rfl

theorem setCounter_isSome (m : Monitor) (h i : Nat) (c : Option Counter) (k : Nat) :
    ((setCounter m h i c).arena k).isSome = (m.arena k).isSome := by
  unfold setCounter setNode
  cases hm : m.arena h with
  | none => rfl
  | some n =>
    simp only
    by_cases hk : k = h
    · subst hk; simp [Function.update, hm]
    · simp [Function.update, hk]

theorem getCounter_setCounter_self (m : Monitor) (h i : Nat) (c : Option Counter)
    (hm : (m.arena h).isSome) :
    getCounter (setCounter m h i c) h i = c := by
  unfold getCounter setCounter setNode
  cases hm2 : m.arena h with
  | none => rw [hm2] at hm; simp at hm
  | some n => simp [Function.update]

theorem getCounter_setCounter_other (m : Monitor) (h i h2 i2 : Nat) (c : Option Counter)
    (hne : h ≠ h2 ∨ i ≠ i2) :
    getCounter (setCounter m h i c) h2 i2 = getCounter m h2 i2 := by
  unfold getCounter setCounter setNode
  cases hm : m.arena h with
  | none => rfl
  | some n =>
    simp only
    by_cases hk : h2 = h
    · subst hk
      rcases hne with hne | hne

      · exact absurd rfl hne
      · simp only [hm, Function.update_same]
        exact Function.update_noteq (Ne.symm hne) c n.counter
    · simp [Function.update, hk]

theorem setCounter_parent_eq (m : Monitor) (h i : Nat) (c : Option Counter) (k : Nat) :
    ((setCounter m h i c).arena k).map StatsNode.parent = (m.arena k).map StatsNode.parent := by
  unfold setCounter setNode
  cases hm : m.arena h with
  | none => rfl
  | some n =>
    simp only
    by_cases hk : k = h
    · subst hk; simp [Function.update, hm]
    · simp [Function.update, hk]

theorem setCounter_prev_eq (m : Monitor) (h i : Nat) (c : Option Counter) (k : Nat) :
    ((setCounter m h i c).arena k).map StatsNode.prev = (m.arena k).map StatsNode.prev := by
  unfold setCounter setNode
  cases hm : m.arena h with
  | none => rfl
  | some n =>
    simp only
    by_cases hk : k = h
    · subst hk; simp [Function.update, hm]
    · simp [Function.update, hk]

theorem setCounter_next_eq (m : Monitor) (h i : Nat) (c : Option Counter) (k : Nat) :
    ((setCounter m h i c).arena k).map StatsNode.next = (m.arena k).map StatsNode.next := by
  unfold setCounter setNode
  cases hm : m.arena h with
  | none => rfl
  | some n =>
    simp only
    by_cases hk : k = h
    · subst hk; simp [Function.update, hm]
    · simp [Function.update, hk]

/-! ## Claim C6 -/

/-- Claim C6: `make_counter` returns null exactly when the memory cap is
nonzero and `alloced + sizeof(Counter)` would exceed it (the model's
allocation itself cannot fail); on success the new counter's rates are
seeded from the supplied parent rates when given and zero-initialized
otherwise, it has no child, and the allocated byte count grows by
`sizeof(Counter)`. -/
theorem claim6_make_counter (m : Monitor) (sh idx : Nat) (fwd rev : Option MyEWMA) :
    ((make_counter m sh idx fwd rev).1 = none ↔
      (0 < m.memmax ∧ m.alloced_mem + (szCounter : Int) > (m.memmax : Int))) ∧
    (∀ c : Counter, (make_counter m sh idx fwd rev).1 = some c →
      c.fwd_rate = (match fwd with | some f => f | none => ewmaInit) ∧
      c.rev_rate = (match rev with | some r => r | none => ewmaInit) ∧
      c.next_level = none ∧
      (make_counter m sh idx fwd rev).2.alloced_mem = m.alloced_mem + (szCounter : Int)) := by
  unfold make_counter
  by_cases hg : m.memmax ≠ 0 ∧ m.alloced_mem + (szCounter : Int) > (m.memmax : Int)
  · constructor
    · simp only [if_pos hg]
      simp [hg.2, Nat.pos_of_ne_zero hg.1]
    · intro c hc
      simp only [if_pos hg] at hc
      exact absurd hc (by simp)
  · constructor
    · simp only [if_neg hg]
      constructor
      · intro hnone; exact absurd hnone (by simp)
      · intro hpos
        exact absurd ⟨Nat.pos_iff_ne_zero.mp hpos.1, hpos.2⟩ hg
    · intro c hc
      simp only [if_neg hg] at hc ⊢
      simp only [Option.some.injEq] at hc
      subst hc
      refine ⟨?_, ?_, rfl, ?_⟩
      · cases fwd <;> rfl
      · cases rev <;> rfl
      · simp [update_alloced_mem, setCounter_alloced]

/-- Witness for claim C6 at a concrete input: seeding from a given
parent forward rate succeeds on the unbounded fresh monitor and charges
one counter. -/
theorem claim6_witness :
    (make_counter init0 0 3 (some ⟨5, 2⟩) none).2.alloced_mem =
      init0.alloced_mem + (szCounter : Int) :=
  ((claim6_make_counter init0 0 3 (some ⟨5, 2⟩) none).2
      ⟨⟨5, 2⟩, ewmaInit, none, 0⟩ (by decide)).2.2.2

/-! ## Claim C7 -/

/-- Monitor state before a failing reconfiguration: a nonzero memory cap
and nondefault offset and threshold. -/
def c7Prior : Monitor := { init0 with memmax := 7, offset := 5, thresh := 3 }

/-- A configuration vector that parses but is rejected: the ratio
0x20000 is 2.0 in 16.16 fixed point, above unity. -/
def c7Args : List CPToken := [.word "PACKETS", .num 2, .fixed16 0x20000, .num 9]

/-- Claim C7, counterexample: `configure` rejects the input (ratio > 1,
ipratemon.cc lines 75-76) yet the monitor state is changed: `_memmax`
and `_anno_packets` are reset before parsing (lines 52-53) and the
parsed offset, ratio and threshold are already stored, so the claim
that no configuration field differs from its value before the call is
false. -/
theorem claim7_counterexample :
    (configure c7Prior c7Args).1 = -1 ∧
    (configure c7Prior c7Args).2.memmax ≠ c7Prior.memmax ∧
    (configure c7Prior c7Args).2.offset ≠ c7Prior.offset ∧
    (configure c7Prior c7Args).2.thresh ≠ c7Prior.thresh := by
  refine ⟨by decide, by decide, by decide, by decide⟩

/-- Claim C7, amended: a configuration rejected by the ratio check
fails with precisely these partial effects: `memmax` and `annotate` are
first reset to their defaults, every parsed value is stored (`memmax`
rounded up to `MEMMAX_MIN` and scaled to bytes), and the counting mode
has already been set from the type keyword; the raw threshold is stored
unscaled and all remaining monitor state is untouched. -/
theorem claim7_amended (m : Monitor) (w : String) (off r th mm : Nat) (b : Bool)
    (hw : upStr w = "PACKETS" ∨ upStr w = "BYTES") (hr : 0x10000 < r) :
    (configure m [.word w, .num off, .fixed16 r, .num th, .num mm, .boolTok b]).1 = -1 ∧
    (configure m [.word w, .num off, .fixed16 r, .num th, .num mm, .boolTok b]).2 =
      { m with
        offset := off
        ratio := r
        thresh := th
        memmax := (if mm ≠ 0 ∧ mm < MEMMAX_MIN then MEMMAX_MIN else mm) * 1024
        anno_packets := b
        count_packets := decide (upStr w = "PACKETS") } := by
  rcases hw with h | h
  · constructor <;>
      simp [configure, h, hr, decide_eq_true_eq]
  · have hne : ¬ (upStr w = "PACKETS") := by
      rw [h]; decide
    constructor <;>
      simp [configure, h, hne, hr, decide_eq_true_eq]

/-- Witness for claim C7 at a concrete input: reconfiguring with type
BYTES and ratio 0x10001 fails with the described partial state. -/
theorem claim7_witness :
    (configure { init0 with memmax := 7 }
      [.word "BYTES", .num 2, .fixed16 0x10001, .num 9, .num 50, .boolTok false]).1 = -1 :=
  (claim7_amended { init0 with memmax := 7 } "BYTES" 2 0x10001 9 50 false
    (Or.inr (by decide)) (by decide)).1

/-! ## Claim C3 -/

/-- Configuration used to reach the claim C3 failing state: packet
counting, offset 0, ratio 1.0, a threshold too high for any zoom-in, no
memory cap. -/
def c3Conf : List CPToken := [.word "PACKETS", .num 0, .fixed16 0x10000, .num 1000000]

/-- One packet from 10.0.0.1 to 10.0.0.2. -/
def c3Pkt : Packet :=
  { src := fun k => if k = 0 then 10 else if k = 3 then 1 else 0
    dst := fun k => if k = 0 then 10 else if k = 3 then 2 else 0
    len := 100 }

/-- The state after configure, initialize, one pushed packet (creating
one root-slot counter) and the reset write handler. -/
def c3After : Monitor :=
  resetOp 4 (pushOp (initializeOp 0 (configure init0 c3Conf).2) c3Pkt true true 3)

set_option maxRecDepth 1000000 in
/-- Claim C3 is right and the code is wrong: after reset the tree does
hold only the root (every root slot is empty and the root is the only
live node), but `allocated_bytes` is `sizeof(Stats) + sizeof(Counter)`,
not `sizeof(Stats)`: `reset_write_handler` (ipratemon.cc lines 382-389)
deletes each root-slot `Counter` without the `update_alloced_mem
(-sizeof(Counter))` that every other delete site pairs with the free
(compare the destructor, lines 259-261), so the freed counter stays
counted forever. -/
theorem claim3_reset_accounting :
    ((List.range MAX_COUNTERS).all (fun i => (getCounter c3After 0 i).isNone)) = true ∧
    liveCount c3After = 1 ∧
    c3After.alloced_mem = (szStats : Int) + (szCounter : Int) ∧
    (szStats : Int) + (szCounter : Int) ≠ (szStats : Int) := by
  refine ⟨by decide, by decide, by decide, by decide⟩

/-! ## Claim C5 -/

/-- A root-slot counter owning the single non-root node of the claim C5
failing state. -/
def c5ParentCounter : Counter := ⟨⟨0, 0⟩, ⟨0, 0⟩, some 1, 0⟩

/-- The root node of the claim C5 failing state. -/
def c5Root : StatsNode :=
  { parent := none, prev := none, next := some 1,
    counter := Function.update (fun _ => none) 7 (some c5ParentCounter) }

/-- The non-root node of the claim C5 failing state. -/
def c5Node : StatsNode :=
  { parent := some (0, 7), prev := some 0, next := none, counter := fun _ => none }

/-- A starting state for `forced_fold` with a nonzero cap below the
allocation count and an effective threshold of zero. A zero `_thresh`
is produced by `configure` itself whenever `thresh * ratio < 2^16`
(ipratemon.cc line 79), for example threshold 1 at ratio 1/65536. -/
def c5State : Monitor :=
  { init0 with
    thresh := 0
    memmax := 2000
    base := some 0
    first := some 0
    last := some 1
    arena := fun h => if h = 0 then some c5Root else if h = 1 then some c5Node else none
    fresh := 2
    alloced_mem := 2 * (szStats : Int) + (szCounter : Int) }

/-- Termination of `forced_fold` from a given state, for some direction
stream and tick: some amount of fuel makes the loop return. -/
def ForcedFoldReturns (dirs : Nat → Bool) (now : Nat) (m : Monitor) : Prop :=
  ∃ fuel, (forced_fold fuel dirs now m).isSome

theorem foldStep_nonpos_thresh (m : Monitor) (s : Nat) (fwdDir : Bool) (thresh : Int)
    (now : Nat) (eff : Int) (ht : thresh ≤ 0) :
    (foldStep m s fwdDir thresh now eff).1.alloced_mem = m.alloced_mem ∧
    (foldStep m s fwdDir thresh now eff).1.memmax = m.memmax := by
  unfold foldStep
  cases hs : m.arena s with
  | none => exact ⟨rfl, rfl⟩
  | some n =>
    dsimp only
    cases hp : n.parent with
    | none => exact ⟨rfl, rfl⟩
    | some pc =>
      dsimp only
      cases hc : getCounter m pc.1 pc.2 with
      | none => exact ⟨rfl, rfl⟩
      | some c =>
        dsimp only
        have hlt : ¬ (((c.fwd_rate.update now 0).average : Int) < thresh) := by
          have h0 : (0 : Int) ≤ ((c.fwd_rate.update now 0).average : Int) :=
            Int.natCast_nonneg _
          omega
        simp only [if_neg hlt]
        exact ⟨setCounter_alloced m pc.1 pc.2 _, setCounter_memmax m pc.1 pc.2 _⟩

theorem foldGo_nonpos_thresh (fuel : Nat) (m : Monitor) (s : Nat) (fwdDir : Bool)
    (thresh : Int) (now : Nat) (eff : Int) (ht : thresh ≤ 0) :
    (foldGo fuel m s fwdDir thresh now eff).alloced_mem = m.alloced_mem ∧
    (foldGo fuel m s fwdDir thresh now eff).memmax = m.memmax := by
  induction fuel generalizing m s with
  | zero => exact ⟨rfl, rfl⟩
  | succ fuel ih =>
    simp only [foldGo]
    cases hn : (foldStep m s fwdDir thresh now eff).2 with
    | none =>
      exact foldStep_nonpos_thresh m s fwdDir thresh now eff ht
    | some s2 =>
      have h1 := foldStep_nonpos_thresh m s fwdDir thresh now eff ht
      have h2 := ih (foldStep m s fwdDir thresh now eff).1 s2
      exact ⟨h2.1.trans h1.1, h2.2.trans h1.2⟩

theorem fold_nonpos_thresh (fuel : Nat) (fwdDir : Bool) (now : Nat) (thresh : Int)
    (m : Monitor) (ht : thresh ≤ 0) :
    (fold fuel fwdDir now thresh m).alloced_mem = m.alloced_mem ∧
    (fold fuel fwdDir now thresh m).memmax = m.memmax := by
  unfold fold
  dsimp only
  cases he : (if fwdDir then m.first else m.last) with
  | none => exact ⟨rfl, rfl⟩
  | some s => exact foldGo_nonpos_thresh fuel _ s fwdDir thresh now _ ht

theorem forced_fold_loop_none (fuel : Nat) (dirs : Nat → Bool) (now : Nat)
    (thresh perc : Int) (m : Monitor) (ht : thresh ≤ 0) (hp : perc ≤ 0)
    (hover : (m.memmax : Int) < m.alloced_mem) :
    forced_fold_loop fuel dirs now thresh perc m = none := by
  induction fuel generalizing thresh m with
  | zero =>
    simp only [forced_fold_loop]
    rw [if_pos hover]
  | succ fuel ih =>
    simp only [forced_fold_loop]
    rw [if_pos hover]
    have h := fold_nonpos_thresh (2 * liveCount m + 2) (dirs fuel) now thresh m ht
    refine ih (thresh + perc) _ (by omega) ?_
    rw [h.1, h.2]
    exact hover

/-! ## Claim C4 -/

/-- Spec-side description of the effect of one fold visit on the parent
counter of the visited node, amended: the fwd EWMA is always aged with
sample 0 at the current tick, and the rev EWMA is aged only when the
aged fwd average is below the threshold. -/
def specVisitCounter (c : Counter) (now : Nat) (thresh : Int) : Counter :=
  let f2 := c.fwd_rate.update now 0
  if (f2.average : Int) < thresh then
    { c with fwd_rate := f2, rev_rate := c.rev_rate.update now 0 }
  else
    { c with fwd_rate := f2 }

/-- Spec-side condemnation condition, amended: the node is destroyed
exactly when both aged averages are below the threshold. -/
def specVisitCondemns (c : Counter) (now : Nat) (thresh : Int) : Prop :=
  (((c.fwd_rate.update now 0).average : Int) < thresh) ∧
  (((c.rev_rate.update now 0).average : Int) < thresh)

theorem getCounter_isSome (m : Monitor) (h i : Nat) (c : Counter)
    (hc : getCounter m h i = some c) : (m.arena h).isSome = true := by
  unfold getCounter at hc
  cases hm : m.arena h with
  | none => rw [hm] at hc; exact absurd hc (by simp)
  | some n => simp

theorem destroyStats_removes (fuel : Nat) (m : Monitor) (h : Nat) :
    (destroyStats (fuel + 1) m h).arena h = none := by
  simp only [destroyStats]
  cases hm : m.arena h with
  | none => exact hm
  | some n =>
    dsimp only
    simp [removeNode, Function.update]

/-- Counter whose fwd average survives aging above the threshold; its
rev EWMA is stale (last tick 0, average 9). -/
def c4Parent : Counter := ⟨⟨40, 5⟩, ⟨9, 0⟩, some 1, 0⟩

/-- Root node of the claim C4 state, owning `c4Parent` at slot 7. -/
def c4Root : StatsNode :=
  { parent := none, prev := none, next := some 1,
    counter := Function.update (fun _ => none) 7 (some c4Parent) }

/-- The single non-root node of the claim C4 state. -/
def c4Node : StatsNode :=
  { parent := some (0, 7), prev := some 0, next := none, counter := fun _ => none }

/-- State with one non-root node whose parent counter is `c4Parent`. -/
def c4State : Monitor :=
  { init0 with
    base := some 0
    first := some 0
    last := some 1
    arena := fun h => if h = 0 then some c4Root else if h = 1 then some c4Node else none
    fresh := 2
    alloced_mem := 2 * (szStats : Int) + (szCounter : Int) }

/-- Claim C4, counterexample: node 1 is the only non-root node, so
`fold(10)` visits it; the claim says both parent EWMAs are updated with
sample 0 at the current tick, but the aged fwd average (30) stays at or
above the threshold, so the source skips the rev update (ipratemon.cc
lines 204-207): after the fold the parent rev EWMA still holds its old
value `(9, 0)`, which an update at tick 5 would have changed; the node
survives. -/
theorem claim4_counterexample :
    getCounter (fold 10 true 5 10 c4State) 0 7 =
      some ⟨⟨30, 5⟩, ⟨9, 0⟩, some 1, 0⟩ ∧
    MyEWMA.update ⟨9, 0⟩ 5 0 ≠ (⟨9, 0⟩ : MyEWMA) ∧
    ((fold 10 true 5 10 c4State).arena 1).isSome = true := by
  refine ⟨by decide, by decide, by decide⟩

/-- Claim C4, amended: for a node `s` visited by fold whose parent
counter is `c`, the fwd EWMA of the parent is updated with sample 0 at
the current tick; the rev EWMA is updated only when the aged fwd average
is below `thresh_now`; and `s` is destroyed if and only if both averages
are below `thresh_now` after this aging (the parent counter then equals
`specVisitCounter c`, with its child slot cleared by the destructor). -/
theorem claim4_amended (m : Monitor) (s : Nat) (fwdDir : Bool) (thresh : Int)
    (now : Nat) (eff : Int) (n : StatsNode) (pc : Nat × Nat) (c : Counter)
    (hs : m.arena s = some n) (hp : n.parent = some pc)
    (hc : getCounter m pc.1 pc.2 = some c) :
    (¬ specVisitCondemns c now thresh →
      getCounter (foldStep m s fwdDir thresh now eff).1 pc.1 pc.2 =
        some (specVisitCounter c now thresh) ∧
      ((foldStep m s fwdDir thresh now eff).1.arena s).isSome = true) ∧
    (specVisitCondemns c now thresh →
      (foldStep m s fwdDir thresh now eff).1.arena s = none) := by
  have harena : (m.arena pc.1).isSome = true := getCounter_isSome m pc.1 pc.2 c hc
  unfold foldStep
  rw [hs]
  dsimp only
  rw [hp]
  dsimp only
  rw [hc]
  dsimp only
  by_cases hf : ((c.fwd_rate.update now 0).average : Int) < thresh
  · rw [if_pos hf]
    by_cases hr : ((c.rev_rate.update now 0).average : Int) < thresh
    · rw [if_pos hr]
      constructor
      · intro hnc; exact absurd ⟨hf, hr⟩ hnc
      · intro _
        by_cases hb :
            (destroyStats
              (liveCount (setCounter (setCounter m pc.1 pc.2
                  (some { c with fwd_rate := c.fwd_rate.update now 0 })) pc.1 pc.2
                  (some { c with fwd_rate := c.fwd_rate.update now 0,
                                 rev_rate := c.rev_rate.update now 0 })) + 1)
              (setCounter (setCounter m pc.1 pc.2
                  (some { c with fwd_rate := c.fwd_rate.update now 0 })) pc.1 pc.2
                  (some { c with fwd_rate := c.fwd_rate.update now 0,
                                 rev_rate := c.rev_rate.update now 0 })) s).alloced_mem < eff
        · rw [if_pos hb]
          exact destroyStats_removes _ _ s
        · rw [if_neg hb]
          exact destroyStats_removes _ _ s
    · rw [if_neg hr]
      constructor
      · intro _
        constructor
        · rw [getCounter_setCounter_self]
          · unfold specVisitCounter
            rw [if_pos hf]
          · rw [setCounter_isSome]
            exact harena
        · rw [setCounter_isSome, setCounter_isSome, hs]
          rfl
      · intro hcond
        exact absurd hcond.2 hr
  · rw [if_neg hf]
    constructor
    · intro _
      constructor
      · rw [getCounter_setCounter_self m pc.1 pc.2 _ harena]
        unfold specVisitCounter
        rw [if_neg hf]
      · rw [setCounter_isSome, hs]
        rfl
    · intro hcond
      exact absurd hcond.1 hf

/-- Witness for the amended claim C4 at the concrete state `c4State`:
the visit leaves the parent counter exactly as `specVisitCounter`
describes. -/
theorem claim4_witness :
    getCounter (foldStep c4State 1 true 10 5 1951).1 0 7 =
      some (specVisitCounter c4Parent 5 10) :=
  ((claim4_amended c4State 1 true 10 5 1951 c4Node (0, 7) c4Parent rfl rfl rfl).1
    (fun hcond => absurd hcond.1 (by decide))).1

/-- Claim C5 is right in intent and the code is wrong: from this
starting state with a nonzero cap below the allocation count,
`forced_fold` never returns. The effective threshold is 0, so `perc =
(int)(0 / 5.0) = 0` and the schedule stays at 0 forever, while `fold(0)`
can never satisfy `average() < 0` and thus never frees a byte
(ipratemon.cc lines 164-166, 205-207). -/
theorem claim5_forced_fold_diverges :
    0 < c5State.memmax ∧ (c5State.memmax : Int) < c5State.alloced_mem ∧
    c5State.thresh = 0 ∧
    ¬ ForcedFoldReturns (fun _ => true) 5 c5State := by
  refine ⟨by decide, by decide, rfl, ?_⟩
  rintro ⟨fuel, hs⟩
  unfold forced_fold at hs
  rw [forced_fold_loop_none fuel (fun _ => true) 5 (c5State.thresh : Int)
    ((c5State.thresh : Int) / 5) c5State (by decide) (by decide) (by decide)] at hs
  simp at hs

/-! ## Claim C8 -/

/-- The exact traversal of the age-list links from `cur` in direction
`fwdDir`: the list follows `next` (forward) or `prev` (backward) links
through live nodes and ends where the link is null. -/
def ChainFrom (m : Monitor) (fwdDir : Bool) : Option Nat → List Nat → Prop
  | cur, [] => cur = none
  | cur, h :: t => cur = some h ∧ (m.arena h).isSome = true ∧
      ChainFrom m fwdDir (advanceFrom m h fwdDir) t

instance instDecChainFrom (m : Monitor) (fwdDir : Bool) :
    ∀ (cur : Option Nat) (R : List Nat), Decidable (ChainFrom m fwdDir cur R)
  | cur, [] => by unfold ChainFrom; infer_instance
  | cur, h :: t => by
    unfold ChainFrom
    have := instDecChainFrom m fwdDir (advanceFrom m h fwdDir) t
    infer_instance

/-- The owning counter slot of a node, if any. -/
def parentPair (m : Monitor) (h : Nat) : Option (Nat × Nat) :=
  match m.arena h with
  | some n => n.parent
  | none => none

/-- The fold visit of node `h` cannot condemn it: either it has no
parent counter, or the parent fwd average aged by a zero sample at the
current tick stays at or above the threshold. -/
def parentFwdStaysHot (m : Monitor) (h : Nat) (now : Nat) (thresh : Int) : Bool :=
  match m.arena h with
  | none => true
  | some n =>
    match n.parent with
    | none => true
    | some pc =>
      match getCounter m pc.1 pc.2 with
      | none => true
      | some c => decide (thresh ≤ ((c.fwd_rate.update now 0).average : Int))

theorem setCounter_parentPair (m : Monitor) (h i : Nat) (c : Option Counter) (k : Nat) :
    parentPair (setCounter m h i c) k = parentPair m k := by
  unfold parentPair
  have := setCounter_parent_eq m h i c k
  cases h1 : (setCounter m h i c).arena k with
  | none =>
    rw [h1] at this
    cases h2 : m.arena k with
    | none => rfl
    | some n2 => rw [h2] at this; exact absurd this.symm (by simp)
  | some n =>
    rw [h1] at this
    cases h2 : m.arena k with
    | none => rw [h2] at this; exact absurd this (by simp)
    | some n2 =>
      rw [h2] at this
      simp only [Option.map_some'] at this
      simpa using this

theorem setCounter_advanceFrom (m : Monitor) (h i : Nat) (c : Option Counter)
    (k : Nat) (d : Bool) :
    advanceFrom (setCounter m h i c) k d = advanceFrom m k d := by
  unfold advanceFrom
  have hp := setCounter_prev_eq m h i c k
  have hn := setCounter_next_eq m h i c k
  cases h1 : (setCounter m h i c).arena k with
  | none =>
    rw [h1] at hp hn
    cases h2 : m.arena k with
    | none => rfl
    | some n2 =>
      rw [h2] at hp
      exact absurd hp.symm (by simp)
  | some n =>
    rw [h1] at hp hn
    cases h2 : m.arena k with
    | none => rw [h2] at hp; exact absurd hp (by simp)
    | some n2 =>
      rw [h2] at hp hn
      simp only [Option.map_some', Option.some.injEq] at hp hn
      cases d <;> simp [hp, hn]

theorem ChainFrom_congr (m m2 : Monitor) (fwdDir : Bool)
    (hadv : ∀ h d, advanceFrom m2 h d = advanceFrom m h d)
    (hsome : ∀ k, ((m2.arena k).isSome) = ((m.arena k).isSome)) :
    ∀ (cur : Option Nat) (R : List Nat),
      ChainFrom m fwdDir cur R → ChainFrom m2 fwdDir cur R := by
  intro cur R
  induction R generalizing cur with
  | nil => intro hc; exact hc
  | cons h t ih =>
    intro hc
    obtain ⟨h1, h2, h3⟩ := hc
    refine ⟨h1, by rw [hsome]; exact h2, ?_⟩
    rw [hadv]
    exact ih _ h3

/-- Behavior of one fold visit at a node whose parent counter stays hot:
the traversal advances along the unchanged links, no node is created or
destroyed, parent pointers are untouched, and the hotness of every node
whose parent counter is a different slot is unchanged. -/
theorem foldStep_hot (m : Monitor) (s : Nat) (fwdDir : Bool) (thresh : Int)
    (now : Nat) (eff : Int) (hhot : parentFwdStaysHot m s now thresh = true) :
    (foldStep m s fwdDir thresh now eff).2 = advanceFrom m s fwdDir ∧
    (∀ k, (((foldStep m s fwdDir thresh now eff).1.arena k).isSome) = ((m.arena k).isSome)) ∧
    (∀ h d, advanceFrom (foldStep m s fwdDir thresh now eff).1 h d = advanceFrom m h d) ∧
    (∀ h, parentPair (foldStep m s fwdDir thresh now eff).1 h = parentPair m h) ∧
    (∀ h, parentPair m h ≠ parentPair m s ∨ parentPair m s = none →
        parentFwdStaysHot (foldStep m s fwdDir thresh now eff).1 h now thresh =
          parentFwdStaysHot m h now thresh) := by
  unfold foldStep
  cases hs : m.arena s with
  | none =>
    refine ⟨?_, fun k => rfl, fun h d => rfl, fun h => rfl, fun h _ => rfl⟩
    unfold advanceFrom
    rw [hs]
  | some n =>
    dsimp only
    cases hp : n.parent with
    | none => exact ⟨rfl, fun k => rfl, fun h d => rfl, fun h => rfl, fun h _ => rfl⟩
    | some pc =>
      dsimp only
      cases hc : getCounter m pc.1 pc.2 with
      | none => exact ⟨rfl, fun k => rfl, fun h d => rfl, fun h => rfl, fun h _ => rfl⟩
      | some c =>
        dsimp only
        have hge : thresh ≤ ((c.fwd_rate.update now 0).average : Int) := by
          revert hhot
          unfold parentFwdStaysHot
          rw [hs]
          dsimp only
          rw [hp]
          dsimp only
          rw [hc]
          dsimp only
          intro hhot
          simpa using hhot
        have hngt : ¬ (((c.fwd_rate.update now 0).average : Int) < thresh) := by omega
        rw [if_neg hngt]
        refine ⟨setCounter_advanceFrom m pc.1 pc.2 _ s fwdDir, ?_, ?_, ?_, ?_⟩
        · intro k; exact setCounter_isSome m pc.1 pc.2 _ k
        · intro h d; exact setCounter_advanceFrom m pc.1 pc.2 _ h d
        · intro h; exact setCounter_parentPair m pc.1 pc.2 _ h
        · intro h hdiff
          have hps : parentPair m s = some pc := by
            unfold parentPair
            rw [hs]
            exact hp
          unfold parentFwdStaysHot
          have hpar := setCounter_parent_eq m pc.1 pc.2
            (some { c with fwd_rate := c.fwd_rate.update now 0 }) h
          cases h1 : (setCounter m pc.1 pc.2
              (some { c with fwd_rate := c.fwd_rate.update now 0 })).arena h with
          | none =>
            rw [h1] at hpar
            cases h2 : m.arena h with
            | none => rfl
            | some n2 => rw [h2] at hpar; exact absurd hpar.symm (by simp)
          | some nh =>
            rw [h1] at hpar
            cases h2 : m.arena h with
            | none => rw [h2] at hpar; exact absurd hpar (by simp)
            | some n2 =>
              rw [h2] at hpar
              simp only [Option.map_some', Option.some.injEq] at hpar
              dsimp only
              rw [hpar]
              cases hp2 : n2.parent with
              | none => rfl
              | some pc2 =>
                dsimp only
                have hpc2 : pc2 ≠ pc := by
                  intro he
                  subst he
                  rcases hdiff with hd | hd
                  · apply hd
                    rw [hps]
                    unfold parentPair
                    rw [h2]
                    exact hp2
                  · rw [hps] at hd; exact absurd hd (by simp)
                rw [getCounter_setCounter_other m pc.1 pc.2 pc2.1 pc2.2
                  (some { c with fwd_rate := c.fwd_rate.update now 0 }) ?_]
                by_cases hq : pc2.1 = pc.1
                · right
                  intro he
                  apply hpc2
                  obtain ⟨a, b⟩ := pc2
                  obtain ⟨a2, b2⟩ := pc
                  simp only at hq he
                  simp [hq, he]
                · left; exact fun he => hq he.symm

/-- The fold traversal destroys no node when every node of the remaining
chain has a hot parent: the live-node set is unchanged. -/
theorem foldGo_no_delete (fwdDir : Bool) (thresh : Int) (now : Nat) (eff : Int) :
    ∀ (fuel : Nat) (m : Monitor) (s : Nat) (R : List Nat),
    ChainFrom m fwdDir (some s) R →
    R.Nodup →
    (∀ h ∈ R, parentFwdStaysHot m h now thresh = true) →
    (∀ h1 ∈ R, ∀ h2 ∈ R, parentPair m h1 ≠ none →
        parentPair m h1 = parentPair m h2 → h1 = h2) →
    ∀ k, (((foldGo fuel m s fwdDir thresh now eff).arena k).isSome) =
      ((m.arena k).isSome) := by
  intro fuel
  induction fuel with
  | zero => intro m s R hch hnd hhot hinj k; rfl
  | succ fuel ih =>
    intro m s R hch hnd hhot hinj k
    cases R with
    | nil => exact absurd hch (by simp [ChainFrom])
    | cons s0 R2 =>
      obtain ⟨hcur, hlive, hch2⟩ := hch
      have hs0 : s0 = s := by injection hcur.symm
      subst hs0
      have hshot : parentFwdStaysHot m s0 now thresh = true :=
        hhot s0 (List.mem_cons_self s0 R2)
      have hstep := foldStep_hot m s0 fwdDir thresh now eff hshot
      simp only [foldGo]
      rw [hstep.1]
      cases hadv : advanceFrom m s0 fwdDir with
      | none => exact hstep.2.1 k
      | some s2 =>
        rw [hadv] at hch2
        have hch3 : ChainFrom (foldStep m s0 fwdDir thresh now eff).1 fwdDir (some s2) R2 :=
          ChainFrom_congr m _ fwdDir hstep.2.2.1 hstep.2.1 _ _ hch2
        have hR2s : s0 ∉ R2 := (List.nodup_cons.mp hnd).1
        have hnd2 : R2.Nodup := (List.nodup_cons.mp hnd).2
        have hhot2 : ∀ h ∈ R2,
            parentFwdStaysHot (foldStep m s0 fwdDir thresh now eff).1 h now thresh = true := by
          intro h hmem
          rw [hstep.2.2.2.2 h ?_]
          · exact hhot h (List.mem_cons_of_mem s0 hmem)
          · by_cases hnone : parentPair m s0 = none
            · right; exact hnone
            · left
              intro heq
              have := hinj h (List.mem_cons_of_mem s0 hmem) s0 (List.mem_cons_self s0 R2)
                (by rw [heq]; exact hnone) heq
              exact hR2s (this ▸ hmem)
        have hinj2 : ∀ h1 ∈ R2, ∀ h2 ∈ R2,
            parentPair (foldStep m s0 fwdDir thresh now eff).1 h1 ≠ none →
            parentPair (foldStep m s0 fwdDir thresh now eff).1 h1 =
              parentPair (foldStep m s0 fwdDir thresh now eff).1 h2 → h1 = h2 := by
          intro h1 hm1 h2 hm2 hne heq
          rw [hstep.2.2.2.1 h1] at hne heq
          rw [hstep.2.2.2.1 h2] at heq
          exact hinj h1 (List.mem_cons_of_mem s0 hm1) h2 (List.mem_cons_of_mem s0 hm2) hne heq
        have hres := ih (foldStep m s0 fwdDir thresh now eff).1 s2 R2 hch3 hnd2 hhot2 hinj2 k
        rw [hres]
        exact hstep.2.1 k

/-- Parent counter of the claim C8 state: fwd average 16 at tick 5 ages
to 12 (at or above threshold 10) on a first same-tick fold and to 9
(below) on a second. -/
def c8Parent : Counter := ⟨⟨16, 5⟩, ⟨0, 5⟩, some 1, 0⟩

/-- Root node of the claim C8 state. -/
def c8Root : StatsNode :=
  { parent := none, prev := none, next := some 1,
    counter := Function.update (fun _ => none) 7 (some c8Parent) }

/-- The single non-root node of the claim C8 state. -/
def c8Node : StatsNode :=
  { parent := some (0, 7), prev := some 0, next := none, counter := fun _ => none }

/-- State on which fold(10) is not idempotent. -/
def c8State : Monitor :=
  { init0 with
    base := some 0
    first := some 0
    last := some 1
    arena := fun h => if h = 0 then some c8Root else if h = 1 then some c8Node else none
    fresh := 2
    alloced_mem := 2 * (szStats : Int) + (szCounter : Int) }

/-- Claim C8, counterexample: with the same threshold 10, the same tick
5 and the same direction, the first `fold` destroys nothing (the parent
fwd average ages 16 to 12, not below 10) but the immediately repeated
`fold` destroys the node (12 ages to 9, below 10, and the rev average is
0): aging is applied even at an unchanged tick (ipratemon.cc line 204
and the spec EWMA contract), so re-invoking `fold(t)` can destroy
additional nodes. -/
theorem claim8_counterexample :
    liveCount (fold 10 true 5 10 c8State) = 2 ∧
    liveCount (fold 10 true 5 10 (fold 10 true 5 10 c8State)) = 1 := by
  refine ⟨by decide, by decide⟩

/-- Claim C8, amended: re-invoking `fold(t)` with the same `t`, the same
tick and no intervening traffic destroys no additional nodes provided
every node of the age-list traversal still has a hot parent: a parent
counter (if any) whose fwd average, aged once more by a zero sample at
the current tick, stays at or above `t`. Under that proviso (with the
traversal chain `R` duplicate-free and distinct nodes owned by distinct
counters, as holds for every well-formed heap), the set of live nodes
after the fold is exactly the set before it. Without the proviso the
claim fails, because fold ages the averages even at an unchanged tick. -/
theorem claim8_amended (fuel : Nat) (fwdDir : Bool) (now : Nat) (thresh : Int)
    (m : Monitor) (R : List Nat)
    (hch : ChainFrom m fwdDir (if fwdDir then m.first else m.last) R)
    (hnd : R.Nodup)
    (hhot : ∀ h ∈ R, parentFwdStaysHot m h now thresh = true)
    (hinj : ∀ h1 ∈ R, ∀ h2 ∈ R, parentPair m h1 ≠ none →
        parentPair m h1 = parentPair m h2 → h1 = h2) :
    ∀ k, (((fold fuel fwdDir now thresh m).arena k).isSome) = ((m.arena k).isSome) := by
  unfold fold
  dsimp only
  cases he : (if fwdDir then m.first else m.last) with
  | none => intro k; rfl
  | some s =>
    rw [he] at hch
    intro k
    have hch0 : ChainFrom { m with prev_deleted := none, next_deleted := none } fwdDir
        (some s) R :=
      ChainFrom_congr m { m with prev_deleted := none, next_deleted := none } fwdDir
        (fun h d => rfl) (fun k2 => rfl) (some s) R hch
    exact foldGo_no_delete fwdDir thresh now
      (if m.memmax ≠ 0 then (m.memmax : Int) else m.alloced_mem * 9 / 10) fuel
      { m with prev_deleted := none, next_deleted := none } s R hch0 hnd hhot hinj k

/-- Witness for the amended claim C8 at the concrete state `c4State`
(parent fwd average 40 ages to 30, staying above threshold 10): the fold
destroys nothing. -/
theorem claim8_witness :
    ((fold 10 true 5 10 c4State).arena 1).isSome = ((c4State.arena 1).isSome) :=
  claim8_amended 10 true 5 10 c4State [0, 1] (by decide) (by decide) (by decide)
    (by decide) 1

/-! ## Claim C1: memory-cap invariant

First, frame lemmas: which primitives leave `alloced_mem` and `memmax`
alone, and which change them how. -/

@[simp]
theorem setNodeNext_alloced (m : Monitor) (h : Nat) (v : Option Nat) :
    (setNodeNext m h v).alloced_mem = m.alloced_mem := by
  unfold setNodeNext setNode; cases m.arena h <;> rfl

@[simp]
theorem setNodeNext_memmax (m : Monitor) (h : Nat) (v : Option Nat) :
    (setNodeNext m h v).memmax = m.memmax := by
  unfold setNodeNext setNode; cases m.arena h <;> rfl

@[simp]
theorem setNodePrev_alloced (m : Monitor) (h : Nat) (v : Option Nat) :
    (setNodePrev m h v).alloced_mem = m.alloced_mem := by
  unfold setNodePrev setNode; cases m.arena h <;> rfl

@[simp]
theorem setNodePrev_memmax (m : Monitor) (h : Nat) (v : Option Nat) :
    (setNodePrev m h v).memmax = m.memmax := by
  unfold setNodePrev setNode; cases m.arena h <;> rfl

@[simp]
theorem setParent_alloced (m : Monitor) (h : Nat) (pc : Nat × Nat) :
    (setParent m h pc).alloced_mem = m.alloced_mem := by
  unfold setParent setNode; cases m.arena h <;> rfl

@[simp]
theorem setParent_memmax (m : Monitor) (h : Nat) (pc : Nat × Nat) :
    (setParent m h pc).memmax = m.memmax := by
  unfold setParent setNode; cases m.arena h <;> rfl

@[simp]
theorem update_alloced_mem_alloced (m : Monitor) (d : Int) :
    (update_alloced_mem m d).alloced_mem = m.alloced_mem + d := rfl

@[simp]
theorem update_alloced_mem_memmax (m : Monitor) (d : Int) :
    (update_alloced_mem m d).memmax = m.memmax := rfl

@[simp]
theorem removeNode_alloced (m : Monitor) (h : Nat) :
    (removeNode m h).alloced_mem = m.alloced_mem := rfl

@[simp]
theorem removeNode_memmax (m : Monitor) (h : Nat) :
    (removeNode m h).memmax = m.memmax := rfl

@[simp]
theorem appendTail_alloced (m : Monitor) (h : Nat) :
    (appendTail m h).alloced_mem = m.alloced_mem := by
  unfold appendTail; cases m.last <;> first | rfl | simp

@[simp]
theorem appendTail_memmax (m : Monitor) (h : Nat) :
    (appendTail m h).memmax = m.memmax := by
  unfold appendTail; cases m.last <;> first | rfl | simp

theorem spliceRemove_cap (m : Monitor) (h : Nat) :
    (spliceRemove m h).alloced_mem = m.alloced_mem ∧
    (spliceRemove m h).memmax = m.memmax := by
  unfold spliceRemove
  dsimp only
  repeat' split
  all_goals first | exact ⟨rfl, rfl⟩ | simp

theorem clearParentLink_cap (m : Monitor) (h : Nat) :
    (clearParentLink m h).alloced_mem = m.alloced_mem ∧
    (clearParentLink m h).memmax = m.memmax := by
  unfold clearParentLink
  repeat' split
  all_goals first | exact ⟨rfl, rfl⟩ | simp [setCounter_alloced, setCounter_memmax]

theorem destroySlots_cap (destroyChild : Monitor → Nat → Monitor)
    (hD : ∀ (m : Monitor) (ch : Nat), (destroyChild m ch).alloced_mem ≤ m.alloced_mem ∧
      (destroyChild m ch).memmax = m.memmax) (h : Nat) :
    ∀ (l : List Nat) (m : Monitor),
      (destroySlots destroyChild h l m).alloced_mem ≤ m.alloced_mem ∧
      (destroySlots destroyChild h l m).memmax = m.memmax := by
  intro l
  induction l with
  | nil => intro m; exact ⟨le_refl _, rfl⟩
  | cons i rest ih =>
    intro m
    simp only [destroySlots]
    cases hc : getCounter m h i with
    | none => exact ih m
    | some c =>
      dsimp only
      cases hnl : c.next_level with
      | none =>
        dsimp only
        have h2 := ih (setCounter (update_alloced_mem m (-(szCounter : Int))) h i none)
        rw [setCounter_alloced, setCounter_memmax, update_alloced_mem_alloced,
          update_alloced_mem_memmax] at h2
        have hpos : (0 : Int) < szCounter := by decide
        exact ⟨by omega, h2.2⟩
      | some ch =>
        dsimp only
        have h1 := hD m ch
        have h2 := ih (setCounter (update_alloced_mem (destroyChild m ch)
          (-(szCounter : Int))) h i none)
        rw [setCounter_alloced, setCounter_memmax, update_alloced_mem_alloced,
          update_alloced_mem_memmax] at h2
        have hpos : (0 : Int) < szCounter := by decide
        refine ⟨by omega, ?_⟩
        rw [h2.2, h1.2]

theorem destroyStats_cap (fuel : Nat) :
    ∀ (m : Monitor) (h : Nat),
      (destroyStats fuel m h).alloced_mem ≤ m.alloced_mem ∧
      (destroyStats fuel m h).memmax = m.memmax := by
  induction fuel with
  | zero => intro m h; exact ⟨le_refl _, rfl⟩
  | succ fuel ih =>
    intro m h
    simp only [destroyStats]
    cases hm : m.arena h with
    | none => exact ⟨le_refl _, rfl⟩
    | some n =>
      dsimp only
      have h1 := destroySlots_cap (destroyStats fuel) ih h (List.range MAX_COUNTERS) m
      have h2 := spliceRemove_cap (destroySlots (destroyStats fuel) h
        (List.range MAX_COUNTERS) m) h
      have h3 := clearParentLink_cap (spliceRemove (destroySlots (destroyStats fuel) h
        (List.range MAX_COUNTERS) m) h) h
      simp only [removeNode_alloced, removeNode_memmax, update_alloced_mem_alloced,
        update_alloced_mem_memmax]
      have hpos : (0 : Int) < szStats := by decide
      constructor
      · omega
      · rw [h3.2, h2.2, h1.2]

theorem foldStep_cap (m : Monitor) (s : Nat) (fwdDir : Bool) (thresh : Int)
    (now : Nat) (eff : Int) :
    (foldStep m s fwdDir thresh now eff).1.alloced_mem ≤ m.alloced_mem ∧
    (foldStep m s fwdDir thresh now eff).1.memmax = m.memmax := by
  unfold foldStep
  cases hs : m.arena s with
  | none => exact ⟨le_refl _, rfl⟩
  | some n =>
    dsimp only
    cases hp : n.parent with
    | none => exact ⟨le_refl _, rfl⟩
    | some pc =>
      dsimp only
      cases hc : getCounter m pc.1 pc.2 with
      | none => exact ⟨le_refl _, rfl⟩
      | some c =>
        dsimp only
        by_cases hf : ((c.fwd_rate.update now 0).average : Int) < thresh
        · rw [if_pos hf]
          by_cases hr : ((c.rev_rate.update now 0).average : Int) < thresh
          · rw [if_pos hr]
            have hdc := destroyStats_cap
              (liveCount (setCounter (setCounter m pc.1 pc.2
                (some { c with fwd_rate := c.fwd_rate.update now 0 })) pc.1 pc.2
                (some { c with fwd_rate := c.fwd_rate.update now 0,
                               rev_rate := c.rev_rate.update now 0 })) + 1)
              (setCounter (setCounter m pc.1 pc.2
                (some { c with fwd_rate := c.fwd_rate.update now 0 })) pc.1 pc.2
                (some { c with fwd_rate := c.fwd_rate.update now 0,
                               rev_rate := c.rev_rate.update now 0 })) s
            rw [setCounter_alloced, setCounter_alloced] at hdc
            rw [setCounter_memmax, setCounter_memmax] at hdc
            split
            · exact hdc
            · split <;> exact hdc
          · rw [if_neg hr]
            refine ⟨?_, ?_⟩
            · rw [setCounter_alloced, setCounter_alloced]
            · rw [setCounter_memmax, setCounter_memmax]
        · rw [if_neg hf]
          exact ⟨le_of_eq (setCounter_alloced m pc.1 pc.2 _), setCounter_memmax m pc.1 pc.2 _⟩

theorem foldGo_cap (fuel : Nat) :
    ∀ (m : Monitor) (s : Nat) (fwdDir : Bool) (thresh : Int) (now : Nat) (eff : Int),
      (foldGo fuel m s fwdDir thresh now eff).alloced_mem ≤ m.alloced_mem ∧
      (foldGo fuel m s fwdDir thresh now eff).memmax = m.memmax := by
  induction fuel with
  | zero => intro m s fwdDir thresh now eff; exact ⟨le_refl _, rfl⟩
  | succ fuel ih =>
    intro m s fwdDir thresh now eff
    simp only [foldGo]
    cases hn : (foldStep m s fwdDir thresh now eff).2 with
    | none => exact foldStep_cap m s fwdDir thresh now eff
    | some s2 =>
      have h1 := foldStep_cap m s fwdDir thresh now eff
      have h2 := ih (foldStep m s fwdDir thresh now eff).1 s2 fwdDir thresh now eff
      exact ⟨le_trans h2.1 h1.1, h2.2.trans h1.2⟩

theorem fold_cap (fuel : Nat) (fwdDir : Bool) (now : Nat) (thresh : Int) (m : Monitor) :
    (fold fuel fwdDir now thresh m).alloced_mem ≤ m.alloced_mem ∧
    (fold fuel fwdDir now thresh m).memmax = m.memmax := by
  unfold fold
  dsimp only
  cases he : (if fwdDir then m.first else m.last) with
  | none => exact ⟨le_refl _, rfl⟩
  | some s =>
    exact foldGo_cap fuel { m with prev_deleted := none, next_deleted := none } s
      fwdDir thresh now _

theorem forced_fold_loop_some (fuel : Nat) :
    ∀ (dirs : Nat → Bool) (now : Nat) (thresh perc : Int) (m m2 : Monitor),
      forced_fold_loop fuel dirs now thresh perc m = some m2 →
      m2.alloced_mem ≤ (m2.memmax : Int) ∧ m2.memmax = m.memmax := by
  induction fuel with
  | zero =>
    intro dirs now thresh perc m m2 hsome
    simp only [forced_fold_loop] at hsome
    split at hsome
    · exact absurd hsome (by simp)
    · rename_i hle
      injection hsome with hsome
      subst hsome
      exact ⟨by omega, rfl⟩
  | succ fuel ih =>
    intro dirs now thresh perc m m2 hsome
    simp only [forced_fold_loop] at hsome
    split at hsome
    · have h1 := ih dirs now (thresh + perc) perc
        (fold (2 * liveCount m + 2) (dirs fuel) now thresh m) m2 hsome
      refine ⟨h1.1, h1.2.trans ?_⟩
      exact (fold_cap (2 * liveCount m + 2) (dirs fuel) now thresh m).2
    · rename_i hle
      injection hsome with hsome
      subst hsome
      exact ⟨by omega, rfl⟩

@[simp]
theorem newStats_alloced (m : Monitor) :
    (newStats m).2.alloced_mem = m.alloced_mem + (szStats : Int) := rfl

@[simp]
theorem newStats_memmax (m : Monitor) : (newStats m).2.memmax = m.memmax := rfl

/-- The memory-cap invariant: a nonzero cap is at least `MEMMAX_MIN`
KiB (established by `configure` and the `memmax` write handler), and
when the cap is nonzero the allocated byte count stays within it. -/
def CapInv (m : Monitor) : Prop :=
  (m.memmax = 0 ∨ MEMMAX_MIN * 1024 ≤ m.memmax) ∧
  (0 < m.memmax → m.alloced_mem ≤ (m.memmax : Int))

theorem setCounter_capinv (m : Monitor) (h i : Nat) (c : Option Counter)
    (hinv : CapInv m) : CapInv (setCounter m h i c) := by
  unfold CapInv at hinv ⊢
  rw [setCounter_alloced, setCounter_memmax]
  exact hinv

theorem make_counter_capinv (m : Monitor) (sh idx : Nat) (f r : Option MyEWMA)
    (hinv : CapInv m) :
    CapInv (make_counter m sh idx f r).2 ∧
    (make_counter m sh idx f r).2.memmax = m.memmax := by
  unfold make_counter
  split
  · exact ⟨hinv, rfl⟩
  · rename_i hg
    push_neg at hg
    dsimp only
    refine ⟨⟨?_, ?_⟩, ?_⟩
    · rw [update_alloced_mem_memmax, setCounter_memmax]
      exact hinv.1
    · rw [update_alloced_mem_memmax, setCounter_memmax,
        update_alloced_mem_alloced, setCounter_alloced]
      intro hpos
      have hg2 := hg (Nat.pos_iff_ne_zero.mp hpos)
      omega
    · rw [update_alloced_mem_memmax, setCounter_memmax]

theorem updateLevelsZoom_capinv (ks : List Nat) (m2 : Monitor) (sh : Nat)
    (addr : Nat → Nat) (k : Nat) (c1 : Counter) (hinv : CapInv m2) :
    CapInv (updateLevelsZoom ks m2 sh addr k c1) := by
  unfold updateLevelsZoom
  split
  · rename_i hg
    constructor
    · simp only [setCounter_memmax, setParent_memmax, appendTail_memmax, newStats_memmax]
      exact hinv.1
    · simp only [setCounter_memmax, setParent_memmax, appendTail_memmax, newStats_memmax,
        setCounter_alloced, setParent_alloced, appendTail_alloced, newStats_alloced]
      intro hpos
      rcases hg.2.2.2 with h0 | hle
      · exact absurd h0 (Nat.pos_iff_ne_zero.mp hpos)
      · exact hle
  · exact hinv

theorem updateLevelsBody_capinv
    (recurse : Monitor → Nat → Option (MyEWMA × MyEWMA) → Monitor)
    (hrec : ∀ m ch pr, CapInv m → CapInv (recurse m ch pr))
    (ks : List Nat) (m1 : Monitor) (sh : Nat) (addr : Nat → Nat) (fw : Bool)
    (val now k : Nat) (c : Counter) (hinv : CapInv m1) :
    CapInv (updateLevelsBody recurse ks m1 sh addr fw val now k c) := by
  unfold updateLevelsBody
  dsimp only
  generalize (if fw then { c with fwd_rate := c.fwd_rate.update now val }
              else { c with rev_rate := c.rev_rate.update now val }) = c1
  have hinv2 := setCounter_capinv m1 sh (addr k) (some c1) hinv
  split
  · exact hinv2
  · have hinv3 := updateLevelsZoom_capinv ks _ sh addr k c1 hinv2
    split
    · split
      · exact hrec _ _ _ hinv3
      · exact hinv3
    · exact hinv3

theorem updateLevels_capinv :
    ∀ (ks : List Nat) (m : Monitor) (sh : Nat) (addr : Nat → Nat) (fw : Bool)
      (val now : Nat) (pr : Option (MyEWMA × MyEWMA)),
      CapInv m → CapInv (updateLevels ks m sh addr fw val now pr) := by
  intro ks
  induction ks with
  | nil => intro m _ _ _ _ _ _ h; exact h
  | cons k ks ih =>
    intro m sh addr fw val now pr hinv
    simp only [updateLevels]
    cases hgc : getCounter m sh (addr k) with
    | some c =>
      dsimp only
      exact updateLevelsBody_capinv _ (fun m3 ch pr2 hm => ih m3 ch addr fw val now pr2 hm)
        ks m sh addr fw val now k c hinv
    | none =>
      dsimp only
      cases hmk : make_counter m sh (addr k) (pr.map fun prr => prr.1)
          (pr.map fun prr => prr.2) with
      | mk fst snd =>
        cases fst with
        | none =>
          dsimp only
          have hmc := (make_counter_capinv m sh (addr k) (pr.map fun prr => prr.1)
            (pr.map fun prr => prr.2) hinv).1
          rw [hmk] at hmc
          exact hmc
        | some c =>
          dsimp only
          have hmc := (make_counter_capinv m sh (addr k) (pr.map fun prr => prr.1)
            (pr.map fun prr => prr.2) hinv).1
          rw [hmk] at hmc
          exact updateLevelsBody_capinv _ (fun m3 ch pr2 hm => ih m3 ch addr fw val now pr2 hm)
            ks snd sh addr fw val now k c hmc

theorem annoLevelsBody_capinv (recurse : Monitor → Nat → Monitor)
    (hrec : ∀ m ch, CapInv m → CapInv (recurse m ch))
    (m1 : Monitor) (sh : Nat) (addr : Nat → Nat) (level whenT k : Nat) (c : Counter)
    (hinv : CapInv m1) :
    CapInv (annoLevelsBody recurse m1 sh addr level whenT k c) := by
  unfold annoLevelsBody
  dsimp only
  split
  · exact setCounter_capinv m1 sh (addr k) _ hinv
  · have hinv2 : CapInv (if c.next_level = none ∧
        (m1.memmax = 0 ∨ m1.alloced_mem + (szStats : Int) ≤ (m1.memmax : Int)) then
          setCounter (setParent (appendTail (newStats m1).2 (newStats m1).1)
            (newStats m1).1 (sh, addr k)) sh (addr k)
            (some { c with next_level := some (newStats m1).1 })
        else m1) := by
      split
      · rename_i hg
        constructor
        · simp only [setCounter_memmax, setParent_memmax, appendTail_memmax,
            newStats_memmax]
          exact hinv.1
        · simp only [setCounter_memmax, setParent_memmax, appendTail_memmax,
            newStats_memmax, setCounter_alloced, setParent_alloced,
            appendTail_alloced, newStats_alloced]
          intro hpos
          rcases hg.2 with h0 | hle
          · exact absurd h0 (Nat.pos_iff_ne_zero.mp hpos)
          · exact hle
      · exact hinv
    split
    · split
      · exact hrec _ _ hinv2
      · exact hinv2
    · exact hinv2

theorem annoLevels_capinv :
    ∀ (ks : List Nat) (level : Nat) (m : Monitor) (sh : Nat) (addr : Nat → Nat)
      (whenT : Nat), CapInv m → CapInv (annoLevels ks level m sh addr whenT) := by
  intro ks
  induction ks with
  | nil => intro _ m _ _ _ h; exact h
  | cons k ks ih =>
    intro level m sh addr whenT hinv
    simp only [annoLevels]
    cases hgc : getCounter m sh (addr k) with
    | some c =>
      dsimp only
      exact annoLevelsBody_capinv _ (fun m2 ch hm => ih level m2 ch addr whenT hm)
        m sh addr level whenT k c hinv
    | none =>
      dsimp only
      cases hmk : make_counter m sh (addr k) none none with
      | mk fst snd =>
        cases fst with
        | none =>
          dsimp only
          have hmc := (make_counter_capinv m sh (addr k) none none hinv).1
          rw [hmk] at hmc
          exact hmc
        | some c =>
          dsimp only
          have hmc := (make_counter_capinv m sh (addr k) none none hinv).1
          rw [hmk] at hmc
          exact annoLevelsBody_capinv _ (fun m2 ch hm => ih level m2 ch addr whenT hm)
            snd sh addr level whenT k c hmc

theorem printArSlots_cap (printChild : Monitor → Nat → Monitor)
    (hP : ∀ (m : Monitor) (ch : Nat), (printChild m ch).alloced_mem = m.alloced_mem ∧
      (printChild m ch).memmax = m.memmax) (now h : Nat) :
    ∀ (l : List Nat) (m : Monitor),
      (printArSlots printChild now h l m).alloced_mem = m.alloced_mem ∧
      (printArSlots printChild now h l m).memmax = m.memmax := by
  intro l
  induction l with
  | nil => intro m; exact ⟨rfl, rfl⟩
  | cons i rest ih =>
    intro m
    simp only [printArSlots]
    cases hc : getCounter m h i with
    | none => exact ih m
    | some c =>
      dsimp only
      split
      · split
        · simp [ih, hP, setCounter_alloced, setCounter_memmax]
        · simp [ih, setCounter_alloced, setCounter_memmax]
      · exact ih m

theorem printAr_cap (fuel : Nat) :
    ∀ (now : Nat) (m : Monitor) (h : Nat),
      (printAr fuel now m h).alloced_mem = m.alloced_mem ∧
      (printAr fuel now m h).memmax = m.memmax := by
  induction fuel with
  | zero => intro now m h; exact ⟨rfl, rfl⟩
  | succ fuel ih =>
    intro now m h
    simp only [printAr]
    exact printArSlots_cap (printAr fuel now) (fun m2 ch => ih now m2 ch) now h
      (List.range MAX_COUNTERS) m

theorem lookOp_cap (m : Monitor) (lockFree : Bool) (now : Nat) :
    (lookOp m lockFree now).alloced_mem = m.alloced_mem ∧
    (lookOp m lockFree now).memmax = m.memmax := by
  unfold lookOp
  split
  · split
    · exact printAr_cap _ now m _
    · exact ⟨rfl, rfl⟩
  · exact ⟨rfl, rfl⟩

theorem resetSlots_cap :
    ∀ (l : List Nat) (m : Monitor),
      (resetSlots l m).alloced_mem ≤ m.alloced_mem ∧
      (resetSlots l m).memmax = m.memmax := by
  intro l
  induction l with
  | nil => intro m; exact ⟨le_refl _, rfl⟩
  | cons i rest ih =>
    intro m
    simp only [resetSlots]
    cases hb : m.base with
    | none => exact ih m
    | some b =>
      dsimp only
      cases hc : getCounter m b i with
      | none => exact ih m
      | some c =>
        dsimp only
        cases hnl : c.next_level with
        | none =>
          dsimp only
          have h2 := ih (setCounter m b i none)
          rw [setCounter_alloced, setCounter_memmax] at h2
          exact h2
        | some ch =>
          dsimp only
          have h1 := destroyStats_cap (liveCount m + 1) m ch
          have h2 := ih (setCounter (destroyStats (liveCount m + 1) m ch) b i none)
          rw [setCounter_alloced, setCounter_memmax] at h2
          exact ⟨le_trans h2.1 h1.1, h2.2.trans h1.2⟩

theorem resetOp_cap (now : Nat) (m : Monitor) :
    (resetOp now m).alloced_mem ≤ m.alloced_mem ∧ (resetOp now m).memmax = m.memmax := by
  unfold resetOp
  exact resetSlots_cap (List.range MAX_COUNTERS) m

theorem configure_alloced (m : Monitor) (args : List CPToken) :
    (configure m args).2.alloced_mem = m.alloced_mem := by
  unfold configure
  match args with
  | .word w :: .num off :: .fixed16 r :: .num th :: rest4 =>
    match rest4 with
    | [] =>
      dsimp only
      repeat' split
      all_goals rfl
    | [.num mm] =>
      dsimp only
      repeat' split
      all_goals rfl
    | [.num mm, .boolTok b] =>
      dsimp only
      repeat' split
      all_goals rfl
    | .num mm :: .word x :: t | .num mm :: .num x :: t | .num mm :: .fixed16 x :: t
    | .num mm :: .boolTok x :: y :: t => rfl
    | .word x :: t | .fixed16 x :: t | .boolTok x :: t => rfl
  | [] | .num x :: t | .fixed16 x :: t | .boolTok x :: t => rfl
  | .word x :: [] | .word x :: .word y :: t | .word x :: .fixed16 y :: t
  | .word x :: .boolTok y :: t => rfl
  | .word x :: .num y :: [] | .word x :: .num y :: .word z :: t
  | .word x :: .num y :: .num z :: t | .word x :: .num y :: .boolTok z :: t => rfl
  | .word x :: .num y :: .fixed16 z :: [] | .word x :: .num y :: .fixed16 z :: .word u :: t
  | .word x :: .num y :: .fixed16 z :: .fixed16 u :: t
  | .word x :: .num y :: .fixed16 z :: .boolTok u :: t => rfl

theorem configure_result (m : Monitor) (args : List CPToken) :
    (configure m args).1 = -1 ∨
    ((configure m args).2.memmax = 0 ∨
      MEMMAX_MIN * 1024 ≤ (configure m args).2.memmax) := by
  unfold configure
  match args with
  | .word w :: .num off :: .fixed16 r :: .num th :: rest4 =>
    match rest4 with
    | [] =>
      dsimp only
      repeat' split
      all_goals first
        | exact Or.inl rfl
        | (refine Or.inr ?_
           dsimp only
           omega)
    | [.num mm] =>
      dsimp only
      repeat' split
      all_goals first
        | exact Or.inl rfl
        | (refine Or.inr ?_
           dsimp only
           omega)
    | [.num mm, .boolTok b] =>
      dsimp only
      repeat' split
      all_goals first
        | exact Or.inl rfl
        | (refine Or.inr ?_
           dsimp only
           omega)
    | .num mm :: .word x :: t | .num mm :: .num x :: t | .num mm :: .fixed16 x :: t
    | .num mm :: .boolTok x :: y :: t => exact Or.inl rfl
    | .word x :: t | .fixed16 x :: t | .boolTok x :: t => exact Or.inl rfl
  | [] | .num x :: t | .fixed16 x :: t | .boolTok x :: t => exact Or.inl rfl
  | .word x :: [] | .word x :: .word y :: t | .word x :: .fixed16 y :: t
  | .word x :: .boolTok y :: t => exact Or.inl rfl
  | .word x :: .num y :: [] | .word x :: .num y :: .word z :: t
  | .word x :: .num y :: .num z :: t | .word x :: .num y :: .boolTok z :: t =>
    exact Or.inl rfl
  | .word x :: .num y :: .fixed16 z :: [] | .word x :: .num y :: .fixed16 z :: .word u :: t
  | .word x :: .num y :: .fixed16 z :: .fixed16 u :: t
  | .word x :: .num y :: .fixed16 z :: .boolTok u :: t => exact Or.inl rfl

theorem configure_ok_meminv (m : Monitor) (args : List CPToken)
    (hok : (configure m args).1 = 0) :
    (configure m args).2.memmax = 0 ∨
    MEMMAX_MIN * 1024 ≤ (configure m args).2.memmax := by
  rcases configure_result m args with h | h
  · rw [hok] at h; exact absurd h (by decide)
  · exact h

theorem memmax_write_capinv (arg fuel : Nat) (dirs : Nat → Bool) (now : Nat)
    (m m2 : Monitor) (hw : memmax_write arg fuel dirs now m = some m2) : CapInv m2 := by
  unfold memmax_write forced_fold at hw
  dsimp only at hw
  split at hw <;> split at hw
  all_goals first
    | (have h := forced_fold_loop_some fuel dirs now _ _ _ m2 hw
       refine ⟨?_, fun hpos => h.1⟩
       rw [h.2]
       dsimp only
       omega)
    | (injection hw with hw
       subst hw
       refine ⟨?_, fun hpos => ?_⟩
       · dsimp only
         omega
       · dsimp only at hpos ⊢
         omega)

theorem capinv_step (m m2 : Monitor) (hs : Step m m2) (hinv : CapInv m) : CapInv m2 := by
  cases hs with
  | push p port0 ew now =>
    unfold pushOp update_rates
    dsimp only
    repeat' split
    all_goals first
      | exact updateLevels_capinv [0, 1, 2, 3] _ _ _ _ _ _ _
          (updateLevels_capinv [0, 1, 2, 3] _ _ _ _ _ _ _ hinv)
      | exact hinv
  | pull p port0 now =>
    unfold pullOp update_rates
    dsimp only
    repeat' split
    all_goals first
      | exact updateLevels_capinv [0, 1, 2, 3] _ _ _ _ _ _ _
          (updateLevels_capinv [0, 1, 2, 3] _ _ _ _ _ _ _ hinv)
      | exact hinv
  | look lockFree now =>
    have h := lookOp_cap m lockFree now
    unfold CapInv at hinv ⊢
    rw [h.1, h.2]
    exact hinv
  | reset now =>
    have h := resetOp_cap now m
    unfold CapInv at hinv ⊢
    rw [h.2]
    exact ⟨hinv.1, fun hp => le_trans h.1 (hinv.2 hp)⟩
  | memmaxW _ arg fuel dirs now hw => exact memmax_write_capinv arg fuel dirs now m m2 hw
  | annoW addr level whenS now =>
    unfold anno_level_write
    repeat' split
    all_goals first
      | exact annoLevels_capinv [0, 1, 2, 3] level _ _ addr _ hinv
      | exact hinv

theorem preInit_alloced (m : Monitor) (h : PreInit m) : m.alloced_mem = 0 := by
  induction h with
  | start => rfl
  | conf m args _ ih => rw [configure_alloced]; exact ih

theorem capinv_reachable (m : Monitor) (hr : Reachable m) : CapInv m := by
  induction hr with
  | init now m0 args hpre hok =>
    have ha : (configure m0 args).2.alloced_mem = 0 := by
      rw [configure_alloced]; exact preInit_alloced m0 hpre
    have hmm := configure_ok_meminv m0 args hok
    constructor
    · exact hmm
    · intro hpos
      have h1 : (initializeOp now (configure m0 args).2).alloced_mem =
          (configure m0 args).2.alloced_mem + (szStats : Int) := rfl
      have h2 : (initializeOp now (configure m0 args).2).memmax =
          (configure m0 args).2.memmax := rfl
      rw [h1, h2, ha]
      rw [h2] at hpos
      rcases hmm with h0 | hge
      · rw [h0] at hpos; exact absurd hpos (by decide)
      · have hsz : (szStats : Int) ≤ (MEMMAX_MIN * 1024 : Nat) := by decide
        have : ((MEMMAX_MIN * 1024 : Nat) : Int) ≤ ((configure m0 args).2.memmax : Int) := by
          exact_mod_cast hge
        omega
  | step ma mb _ hs ih => exact capinv_step ma mb hs ih

/-- Claim C1: for every sequence of public entry-point invocations
(configure runs before initialize, then push, pull and the handlers in
any order, modelling the host element lifecycle), if the memory cap is
nonzero then on return from each entry point the allocated byte count
is at most the cap. Every allocation path is guarded: `make_counter`
checks the cap before charging a `Counter`, the node allocations of the
descent and of the annotation path are guarded by the cap, and the
`memmax` write handler only returns once `forced_fold` has brought the
count back under a newly tightened cap. -/
theorem claim1_cap_invariant (m : Monitor) (hr : Reachable m) (hpos : 0 < m.memmax) :
    m.alloced_mem ≤ (m.memmax : Int) :=
  (capinv_reachable m hr).2 hpos

/-- Configuration used by the claim C1 witness: packet counting, offset
0, ratio 1.0, threshold 10, memmax 200 KiB. -/
def c1Args : List CPToken :=
  [.word "PACKETS", .num 0, .fixed16 0x10000, .num 10, .num 200]

/-- Witness for claim C1 on a concrete trace: configure with a 200 KiB
cap, then initialize. -/
theorem claim1_witness :
    (initializeOp 3 (configure init0 c1Args).2).alloced_mem ≤
      ((initializeOp 3 (configure init0 c1Args).2).memmax : Int) :=
  claim1_cap_invariant (initializeOp 3 (configure init0 c1Args).2)
    (Reachable.init 3 init0 c1Args PreInit.start (by decide)) (by decide)

/-! ## The age-list invariant

`AgeChain m p l q` says the handles of `l` are live and doubly linked in
order, the first node's `prev` being `p` and the last node's `next`
being `q`. The age-list of a well-formed monitor is the `l` with
`AgeChain m none l none` whose head is `_first` and whose tail is
`_last`, holding every live node exactly once. -/

def headOr (l : List Nat) (q : Option Nat) : Option Nat :=
  match l with
  | [] => q
  | x :: _ => some x

def lastOr : List Nat → Option Nat → Option Nat
  | [], p => p
  | x :: t, _ => lastOr t (some x)

def AgeChain (m : Monitor) : Option Nat → List Nat → Option Nat → Prop
  | _, [], _ => True
  | p, x :: t, q =>
    (∃ n, m.arena x = some n ∧ n.prev = p ∧ n.next = headOr t q) ∧
    AgeChain m (some x) t q

/-- The full age-list shape: the chain runs from `_first` to `_last` and
covers every live node, without repetition. -/
def AgeListOf (m : Monitor) (l : List Nat) : Prop :=
  AgeChain m none l none ∧ m.first = headOr l none ∧ m.last = lastOr l none ∧
  (∀ k, (m.arena k).isSome → k ∈ l) ∧ l.Nodup

/-- The age-list shape while a node is being destroyed: the node `h` has
been unlinked but not yet freed. -/
def AgeListExcept (m : Monitor) (l : List Nat) (h : Nat) : Prop :=
  AgeChain m none l none ∧ m.first = headOr l none ∧ m.last = lastOr l none ∧
  (∀ k, (m.arena k).isSome → k ∈ l ∨ k = h) ∧ h ∉ l ∧ l.Nodup

def AgeInv (m : Monitor) : Prop :=
  ∃ l, AgeListOf m l ∧ ∀ k, m.fresh ≤ k → m.arena k = none

theorem headOr_append (xs ys : List Nat) (q : Option Nat) :
    headOr (xs ++ ys) q = headOr xs (headOr ys q) := by
  cases xs <;> rfl

theorem headOr_nonempty (x : Nat) (t : List Nat) (a b : Option Nat) :
    headOr (x :: t) a = headOr (x :: t) b := rfl

theorem lastOr_cons (x : Nat) (t : List Nat) (a : Option Nat) :
    lastOr (x :: t) a = lastOr t (some x) := rfl

theorem lastOr_append (xs : List Nat) :
    ∀ (ys : List Nat) (p : Option Nat), lastOr (xs ++ ys) p = lastOr ys (lastOr xs p) := by
  induction xs with
  | nil => intro ys p; rfl
  | cons x t ih => intro ys p; simp only [List.cons_append, lastOr_cons]; exact ih ys (some x)

theorem lastOr_concat (xs : List Nat) (b : Nat) (p : Option Nat) :
    lastOr (xs ++ [b]) p = some b := by
  rw [lastOr_append]; rfl

theorem lastOr_eq_none (l : List Nat) :
    ∀ p, lastOr l p = none → l = [] ∧ p = none := by
  induction l with
  | nil => intro p hp; exact ⟨rfl, hp⟩
  | cons x t ih =>
    intro p hp
    rw [lastOr_cons] at hp
    exact absurd (ih (some x) hp).2 (by simp)

theorem AgeChain_isSome (m : Monitor) :
    ∀ (l : List Nat) (p q : Option Nat) (k : Nat),
      AgeChain m p l q → k ∈ l → (m.arena k).isSome := by
  intro l
  induction l with
  | nil => intro p q k _ hk; cases hk
  | cons x t ih =>
    intro p q k hch hk
    obtain ⟨⟨n, hn, _, _⟩, hrest⟩ := hch
    rcases List.mem_cons.mp hk with hk | hk
    · subst hk; rw [hn]; rfl
    · exact ih (some x) q k hrest hk

theorem AgeChain_links_congr (m1 m2 : Monitor) :
    ∀ (l : List Nat) (p q : Option Nat),
      (∀ k, k ∈ l → ∀ n1, m1.arena k = some n1 →
        ∃ n2, m2.arena k = some n2 ∧ n2.prev = n1.prev ∧ n2.next = n1.next) →
      AgeChain m1 p l q → AgeChain m2 p l q := by
  intro l
  induction l with
  | nil => intro p q _ _; trivial
  | cons x t ih =>
    intro p q hag hch
    obtain ⟨⟨n, hn, hprev, hnext⟩, hrest⟩ := hch
    obtain ⟨n2, hn2, hp2, hx2⟩ := hag x (List.mem_cons_self x t) n hn
    exact ⟨⟨n2, hn2, hp2.trans hprev, hx2.trans hnext⟩,
      ih (some x) q (fun k hk => hag k (List.mem_cons_of_mem x hk)) hrest⟩

theorem AgeChain_append (m : Monitor) :
    ∀ (xs ys : List Nat) (p q : Option Nat),
      AgeChain m p (xs ++ ys) q ↔
        AgeChain m p xs (headOr ys q) ∧ AgeChain m (lastOr xs p) ys q := by
  intro xs
  induction xs with
  | nil =>
    intro ys p q
    constructor
    · intro h; exact ⟨trivial, h⟩
    · intro h; exact h.2
  | cons x t ih =>
    intro ys p q
    simp only [List.cons_append]
    show ((∃ n, m.arena x = some n ∧ n.prev = p ∧ n.next = headOr (t ++ ys) q) ∧
        AgeChain m (some x) (t ++ ys) q) ↔ _
    rw [headOr_append, ih ys (some x) q]
    show _ ↔ ((∃ n, m.arena x = some n ∧ n.prev = p ∧ n.next = headOr t (headOr ys q)) ∧
        AgeChain m (some x) t (headOr ys q)) ∧ AgeChain m (lastOr t (some x)) ys q
    exact and_assoc.symm

/-- Retargeting the `next` pointer of the last node of a chain segment. -/
theorem AgeChain_retarget_last (m m2 : Monitor) :
    ∀ (l : List Nat) (t : Nat) (p q v : Option Nat),
      AgeChain m p (l ++ [t]) q →
      (∀ k, k ∈ l → m2.arena k = m.arena k) →
      (∀ n, m.arena t = some n → m2.arena t = some { n with next := v }) →
      AgeChain m2 p (l ++ [t]) v := by
  intro l
  induction l with
  | nil =>
    intro t p q v hch _ ht
    obtain ⟨⟨n, hn, hprev, _⟩, _⟩ := hch
    exact ⟨⟨{ n with next := v }, ht n hn, hprev, rfl⟩, trivial⟩
  | cons x l ih =>
    intro t p q v hch hag ht
    obtain ⟨⟨n, hn, hprev, hnext⟩, hrest⟩ := hch
    refine ⟨⟨n, (hag x (List.mem_cons_self x l)).trans hn, hprev, ?_⟩,
      ih t (some x) q v hrest (fun k hk => hag k (List.mem_cons_of_mem x hk)) ht⟩
    rw [hnext]
    cases l <;> rfl

/-- Retargeting the `prev` pointer of the head node of a chain segment. -/
theorem AgeChain_retarget_head (m m2 : Monitor) (x : Nat) (t : List Nat)
    (p p2 q : Option Nat) (hch : AgeChain m p (x :: t) q)
    (hx : ∀ n, m.arena x = some n → m2.arena x = some { n with prev := p2 })
    (ht : ∀ k, k ∈ t → m2.arena k = m.arena k) :
    AgeChain m2 p2 (x :: t) q := by
  obtain ⟨⟨n, hn, _, hnext⟩, hrest⟩ := hch
  refine ⟨⟨{ n with prev := p2 }, hx n hn, rfl, hnext⟩, ?_⟩
  exact AgeChain_links_congr m m2 t (some x) q
    (fun k hk n1 hn1 => ⟨n1, (ht k hk).trans hn1, rfl, rfl⟩) hrest

/-! ### Shape-preserving operations -/

/-- `m2` has the same age-list shape data as `m1`: identical endpoints,
liveness and links; only counters, configuration and accounting may
differ. -/
def SameShape (m1 m2 : Monitor) : Prop :=
  m2.first = m1.first ∧ m2.last = m1.last ∧ m2.fresh = m1.fresh ∧
  (∀ k, (m2.arena k).isSome = (m1.arena k).isSome) ∧
  (∀ k n1, m1.arena k = some n1 →
    ∃ n2, m2.arena k = some n2 ∧ n2.prev = n1.prev ∧ n2.next = n1.next)

theorem sameShape_refl (m : Monitor) : SameShape m m :=
  ⟨rfl, rfl, rfl, fun _ => rfl, fun _ n1 h => ⟨n1, h, rfl, rfl⟩⟩

theorem sameShape_trans (m1 m2 m3 : Monitor) (h12 : SameShape m1 m2)
    (h23 : SameShape m2 m3) : SameShape m1 m3 := by
  obtain ⟨f1, l1, fr1, s1, n1⟩ := h12
  obtain ⟨f2, l2, fr2, s2, n2⟩ := h23
  refine ⟨f2.trans f1, l2.trans l1, fr2.trans fr1, fun k => (s2 k).trans (s1 k), ?_⟩
  intro k na ha
  obtain ⟨nb, hb, hbp, hbn⟩ := n1 k na ha
  obtain ⟨nc, hc, hcp, hcn⟩ := n2 k nb hb
  exact ⟨nc, hc, hcp.trans hbp, hcn.trans hbn⟩

theorem AgeInv_of_sameShape (m1 m2 : Monitor) (hs : SameShape m1 m2)
    (hinv : AgeInv m1) : AgeInv m2 := by
  obtain ⟨l, ⟨hch, hfst, hlst, hex, hnd⟩, hfb⟩ := hinv
  obtain ⟨hf, hl, hfr, hiso, hlinks⟩ := hs
  refine ⟨l, ⟨AgeChain_links_congr m1 m2 l none none (fun k _ => hlinks k) hch,
    hf.trans hfst, hl.trans hlst, ?_, hnd⟩, ?_⟩
  · intro k hk
    exact hex k ((hiso k) ▸ hk)
  · intro k hk
    have h1 : m1.arena k = none := hfb k (hfr ▸ hk)
    have h2 : (m2.arena k).isSome = false := by rw [hiso k, h1]; rfl
    cases hm : m2.arena k with
    | none => rfl
    | some n => rw [hm] at h2; exact absurd h2 (by simp)

theorem AgeListExcept_of_sameShape (m1 m2 : Monitor) (l : List Nat) (h : Nat)
    (hs : SameShape m1 m2) (he : AgeListExcept m1 l h) : AgeListExcept m2 l h := by
  obtain ⟨hch, hfst, hlst, hex, hmem, hnd⟩ := he
  obtain ⟨hf, hl, _, hiso, hlinks⟩ := hs
  exact ⟨AgeChain_links_congr m1 m2 l none none (fun k _ => hlinks k) hch,
    hf.trans hfst, hl.trans hlst, fun k hk => hex k ((hiso k) ▸ hk), hmem, hnd⟩

theorem sameShape_setCounter (m : Monitor) (h i : Nat) (c : Option Counter) :
    SameShape m (setCounter m h i c) := by
  unfold setCounter
  cases ha : m.arena h with
  | none => exact sameShape_refl m
  | some n =>
    dsimp only
    unfold setNode
    refine ⟨rfl, rfl, rfl, ?_, ?_⟩
    · intro k
      dsimp only
      by_cases hk : k = h
      · subst hk; rw [Function.update_same, ha]; rfl
      · rw [Function.update_noteq hk]
    · intro k n1 h1
      dsimp only
      by_cases hk : k = h
      · subst hk
        rw [ha] at h1
        injection h1 with h1
        subst h1
        exact ⟨_, Function.update_same _ _ _, rfl, rfl⟩
      · exact ⟨n1, by rw [Function.update_noteq hk]; exact h1, rfl, rfl⟩

theorem sameShape_setParent (m : Monitor) (h : Nat) (pc : Nat × Nat) :
    SameShape m (setParent m h pc) := by
  unfold setParent
  cases ha : m.arena h with
  | none => exact sameShape_refl m
  | some n =>
    dsimp only
    unfold setNode
    refine ⟨rfl, rfl, rfl, ?_, ?_⟩
    · intro k
      dsimp only
      by_cases hk : k = h
      · subst hk; rw [Function.update_same, ha]; rfl
      · rw [Function.update_noteq hk]
    · intro k n1 h1
      dsimp only
      by_cases hk : k = h
      · subst hk
        rw [ha] at h1
        injection h1 with h1
        subst h1
        exact ⟨_, Function.update_same _ _ _, rfl, rfl⟩
      · exact ⟨n1, by rw [Function.update_noteq hk]; exact h1, rfl, rfl⟩

theorem sameShape_update_alloced (m : Monitor) (d : Int) :
    SameShape m (update_alloced_mem m d) :=
  ⟨rfl, rfl, rfl, fun _ => rfl, fun _ n1 h => ⟨n1, h, rfl, rfl⟩⟩

theorem sameShape_clearParentLink (m : Monitor) (h : Nat) :
    SameShape m (clearParentLink m h) := by
  unfold clearParentLink
  cases m.arena h with
  | none => exact sameShape_refl m
  | some n =>
    dsimp only
    cases n.parent with
    | none => exact sameShape_refl m
    | some pc =>
      dsimp only
      cases getCounter m pc.1 pc.2 with
      | none => exact sameShape_refl m
      | some c => exact sameShape_setCounter m pc.1 pc.2 _

theorem sameShape_make_counter (m : Monitor) (sh idx : Nat) (f r : Option MyEWMA) :
    SameShape m (make_counter m sh idx f r).2 := by
  unfold make_counter
  split
  · exact sameShape_refl m
  · exact sameShape_trans m _ _ (sameShape_setCounter m sh idx _)
      (sameShape_update_alloced _ _)

theorem AgeInv_setCounter (m : Monitor) (h i : Nat) (c : Option Counter)
    (hinv : AgeInv m) : AgeInv (setCounter m h i c) :=
  AgeInv_of_sameShape m _ (sameShape_setCounter m h i c) hinv

theorem mem_lt_fresh (m : Monitor) (l : List Nat) (p q : Option Nat)
    (hch : AgeChain m p l q) (hfb : ∀ k, m.fresh ≤ k → m.arena k = none)
    (k : Nat) (hk : k ∈ l) : k < m.fresh := by
  by_contra hge
  have h1 := hfb k (Nat.le_of_not_lt hge)
  have h2 := AgeChain_isSome m l p q k hch hk
  rw [h1] at h2
  exact absurd h2 (by simp)

theorem headOr_of_ne_nil (l : List Nat) (hne : l ≠ []) (a b : Option Nat) :
    headOr l a = headOr l b := by
  cases l with
  | nil => exact absurd rfl hne
  | cons x t => rfl

theorem setNodeNext_eq_of_none (m : Monitor) (h : Nat) (v : Option Nat)
    (ha : m.arena h = none) : setNodeNext m h v = m := by
  unfold setNodeNext; rw [ha]

theorem setNodeNext_arena_other (m : Monitor) (h k : Nat) (v : Option Nat) (hne : k ≠ h) :
    (setNodeNext m h v).arena k = m.arena k := by
  unfold setNodeNext
  cases m.arena h with
  | none => rfl
  | some n =>
    dsimp only
    unfold setNode
    dsimp only
    rw [Function.update_noteq hne]

theorem setNodeNext_arena_self (m : Monitor) (h : Nat) (v : Option Nat) (n : StatsNode)
    (ha : m.arena h = some n) :
    (setNodeNext m h v).arena h = some { n with next := v } := by
  unfold setNodeNext
  rw [ha]
  dsimp only
  unfold setNode
  dsimp only
  rw [Function.update_same]

theorem setNodeNext_first (m : Monitor) (h : Nat) (v : Option Nat) :
    (setNodeNext m h v).first = m.first := by
  unfold setNodeNext setNode; cases m.arena h <;> rfl

theorem setNodeNext_last (m : Monitor) (h : Nat) (v : Option Nat) :
    (setNodeNext m h v).last = m.last := by
  unfold setNodeNext setNode; cases m.arena h <;> rfl

theorem setNodeNext_fresh (m : Monitor) (h : Nat) (v : Option Nat) :
    (setNodeNext m h v).fresh = m.fresh := by
  unfold setNodeNext setNode; cases m.arena h <;> rfl

theorem setNodePrev_eq_of_none (m : Monitor) (h : Nat) (v : Option Nat)
    (ha : m.arena h = none) : setNodePrev m h v = m := by
  unfold setNodePrev; rw [ha]

theorem setNodePrev_arena_other (m : Monitor) (h k : Nat) (v : Option Nat) (hne : k ≠ h) :
    (setNodePrev m h v).arena k = m.arena k := by
  unfold setNodePrev
  cases m.arena h with
  | none => rfl
  | some n =>
    dsimp only
    unfold setNode
    dsimp only
    rw [Function.update_noteq hne]

theorem setNodePrev_arena_self (m : Monitor) (h : Nat) (v : Option Nat) (n : StatsNode)
    (ha : m.arena h = some n) :
    (setNodePrev m h v).arena h = some { n with prev := v } := by
  unfold setNodePrev
  rw [ha]
  dsimp only
  unfold setNode
  dsimp only
  rw [Function.update_same]

theorem setNodePrev_first (m : Monitor) (h : Nat) (v : Option Nat) :
    (setNodePrev m h v).first = m.first := by
  unfold setNodePrev setNode; cases m.arena h <;> rfl

theorem setNodePrev_last (m : Monitor) (h : Nat) (v : Option Nat) :
    (setNodePrev m h v).last = m.last := by
  unfold setNodePrev setNode; cases m.arena h <;> rfl

theorem setNodePrev_fresh (m : Monitor) (h : Nat) (v : Option Nat) :
    (setNodePrev m h v).fresh = m.fresh := by
  unfold setNodePrev setNode; cases m.arena h <;> rfl

theorem newStats_fst (m : Monitor) : (newStats m).1 = m.fresh := rfl

theorem newStats_last (m : Monitor) : (newStats m).2.last = m.last := rfl

theorem newStats_first (m : Monitor) : (newStats m).2.first = m.first := rfl

theorem newStats_fresh (m : Monitor) : (newStats m).2.fresh = m.fresh + 1 := rfl

theorem newStats_arena_self (m : Monitor) :
    (newStats m).2.arena m.fresh =
      some { parent := none, prev := none, next := none, counter := fun _ => none } := by
  unfold newStats
  dsimp only
  rw [Function.update_same]

theorem newStats_arena_other (m : Monitor) (k : Nat) (hne : k ≠ m.fresh) :
    (newStats m).2.arena k = m.arena k := by
  unfold newStats
  dsimp only
  rw [Function.update_noteq hne]

/-- Appending a freshly allocated node at the tail of the age-list
preserves the age-list invariant: the new list is the old one followed
by the fresh handle. -/
theorem AgeInv_alloc (m : Monitor) (hinv : AgeInv m) :
    AgeInv (appendTail (newStats m).2 (newStats m).1) := by
  obtain ⟨l, ⟨hch, hfst, hlst, hex, hnd⟩, hfb⟩ := hinv
  have hmem_lt : ∀ k, k ∈ l → k < m.fresh :=
    fun k hk => mem_lt_fresh m l none none hch hfb k hk
  have hnotin : m.fresh ∉ l := fun hmem => absurd (hmem_lt _ hmem) (by omega)
  rw [newStats_fst]
  unfold appendTail
  rw [newStats_last]
  cases hml : m.last with
  | none =>
    dsimp only
    have hlnil : l = [] := (lastOr_eq_none l none (by rw [← hlst, hml])).1
    refine ⟨[m.fresh],
      ⟨⟨⟨{ parent := none, prev := none, next := none, counter := fun _ => none }, ?_,
        rfl, rfl⟩, trivial⟩, rfl, rfl, ?_, by simp⟩, ?_⟩
    · exact newStats_arena_self m
    · intro k hk
      by_cases hkf : k = m.fresh
      · simp [hkf]
      · exfalso
        have heq : (newStats m).2.arena k = m.arena k := newStats_arena_other m k hkf
        have hk' : ((newStats m).2.arena k).isSome := hk
        rw [heq] at hk'
        have := hex k hk'
        rw [hlnil] at this
        cases this
    · intro k hk
      have hk2 : m.fresh + 1 ≤ k := hk
      have hkf : k ≠ m.fresh := by omega
      show (newStats m).2.arena k = none
      rw [newStats_arena_other m k hkf]
      exact hfb k (by omega)
  | some t =>
    dsimp only
    have hlast : lastOr l none = some t := by rw [← hlst, hml]
    rcases List.eq_nil_or_concat l with hlnil | ⟨l1, t2, hlc⟩
    · rw [hlnil] at hlast; exact absurd hlast (by simp [lastOr])
    rw [List.concat_eq_append] at hlc
    have ht2 : t = t2 := by
      rw [hlc, lastOr_concat] at hlast
      injection hlast with h
      exact h.symm
    subst ht2
    have htmem : t ∈ l := by rw [hlc]; exact List.mem_append_right l1 (by simp)
    have htlt : t < m.fresh := hmem_lt t htmem
    have htne : t ≠ m.fresh := by omega
    have hnotin1 : m.fresh ∉ l1 := fun hmem =>
      hnotin (by rw [hlc]; exact List.mem_append_left _ hmem)
    have htnotin1 : t ∉ l1 := by
      rw [hlc] at hnd
      intro hmem
      exact List.disjoint_of_nodup_append hnd hmem (by simp)
    obtain ⟨nt, hnt⟩ : ∃ nt, m.arena t = some nt := by
      have := AgeChain_isSome m l none none t hch htmem
      cases hmt : m.arena t with
      | none => rw [hmt] at this; exact absurd this (by simp)
      | some n => exact ⟨n, rfl⟩
    have hnt' : (newStats m).2.arena t = some nt := by
      rw [newStats_arena_other m t htne]; exact hnt
    set zn : StatsNode :=
      { parent := none, prev := none, next := none, counter := fun _ => none } with hzn
    set m1 := setNodeNext (newStats m).2 t (some m.fresh) with hm1
    set m2 := setNodePrev m1 m.fresh (some t) with hm2
    have hm1t : m1.arena t = some { nt with next := some m.fresh } :=
      setNodeNext_arena_self (newStats m).2 t (some m.fresh) nt hnt'
    have hm1f : m1.arena m.fresh = some zn := by
      rw [hm1, setNodeNext_arena_other _ t m.fresh _ (Ne.symm htne)]
      exact newStats_arena_self m
    have hm2f : m2.arena m.fresh = some { zn with prev := some t } :=
      setNodePrev_arena_self m1 m.fresh (some t) zn hm1f
    have hm2t : m2.arena t = some { nt with next := some m.fresh } := by
      rw [hm2, setNodePrev_arena_other m1 m.fresh t (some t) htne]
      exact hm1t
    have hm2other : ∀ k, k ≠ t → k ≠ m.fresh → m2.arena k = m.arena k := by
      intro k hkt hkf
      rw [hm2, setNodePrev_arena_other m1 m.fresh k (some t) hkf, hm1,
        setNodeNext_arena_other _ t k _ hkt]
      exact newStats_arena_other m k hkf
    refine ⟨l ++ [m.fresh], ⟨?_, ?_, ?_, ?_, ?_⟩, ?_⟩
    · refine AgeChain_links_congr m2 _ (l ++ [m.fresh]) none none
        (fun k _ n1 hn1 => ⟨n1, hn1, rfl, rfl⟩) ?_
      rw [AgeChain_append]
      constructor
      · show AgeChain m2 none l (headOr [m.fresh] none)
        rw [hlc]
        refine AgeChain_retarget_last m m2 l1 t none none (some m.fresh) (hlc ▸ hch) ?_ ?_
        · intro k hk
          exact hm2other k (fun he => htnotin1 (he ▸ hk))
            (fun he => hnotin1 (he ▸ hk))
        · intro n hn
          rw [hnt] at hn
          injection hn with hn
          subst hn
          exact hm2t
      · show AgeChain m2 (lastOr l none) [m.fresh] none
        rw [hlast]
        exact ⟨⟨{ zn with prev := some t }, hm2f, rfl, rfl⟩, trivial⟩
    · show m2.first = headOr (l ++ [m.fresh]) none
      have h1 : m2.first = m.first := by
        rw [hm2, setNodePrev_first, hm1, setNodeNext_first, newStats_first]
      rw [h1, hfst, headOr_append]
      exact headOr_of_ne_nil l (by rw [hlc]; simp) none (headOr [m.fresh] none)
    · show some m.fresh = lastOr (l ++ [m.fresh]) none
      rw [lastOr_concat]
    · intro k hk
      have hk' : (m2.arena k).isSome := hk
      by_cases hkf : k = m.fresh
      · subst hkf; exact List.mem_append_right l (by simp)
      · by_cases hkt : k = t
        · subst hkt; exact List.mem_append_left _ htmem
        · rw [hm2other k hkt hkf] at hk'
          exact List.mem_append_left _ (hex k hk')
    · rw [List.nodup_append]
      exact ⟨hnd, by simp, by
        intro a ha hb
        rw [List.mem_singleton] at hb
        subst hb
        exact hnotin ha⟩
    · intro k hk
      have hk2 : m.fresh + 1 ≤ k := by
        rw [show ({ m2 with last := some m.fresh } : Monitor).fresh = m2.fresh from rfl,
          hm2, setNodePrev_fresh, hm1, setNodeNext_fresh, newStats_fresh] at hk
        exact hk
      have hkf : k ≠ m.fresh := by omega
      have hkt : k ≠ t := by omega
      show m2.arena k = none
      rw [hm2other k hkt hkf]
      exact hfb k (by omega)

theorem setNodeNext_isSome (m : Monitor) (h : Nat) (v : Option Nat) (k : Nat) :
    ((setNodeNext m h v).arena k).isSome = (m.arena k).isSome := by
  by_cases hk : k = h
  · subst hk
    cases ha : m.arena k with
    | none => rw [setNodeNext_eq_of_none m k v ha, ha]
    | some n => rw [setNodeNext_arena_self m k v n ha]; rfl
  · rw [setNodeNext_arena_other m h k v hk]

theorem setNodePrev_isSome (m : Monitor) (h : Nat) (v : Option Nat) (k : Nat) :
    ((setNodePrev m h v).arena k).isSome = (m.arena k).isSome := by
  by_cases hk : k = h
  · subst hk
    cases ha : m.arena k with
    | none => rw [setNodePrev_eq_of_none m k v ha, ha]
    | some n => rw [setNodePrev_arena_self m k v n ha]; rfl
  · rw [setNodePrev_arena_other m h k v hk]

/-- Splicing a node out of the age-list: the remaining list is the old
one with the node removed; the node itself is still allocated (the
destructor frees it afterwards). -/
theorem spliceRemove_except (m : Monitor) (hh : Nat) (l : List Nat)
    (hA : AgeListOf m l) :
    ∃ l2, AgeListExcept (spliceRemove m hh) l2 hh ∧
      (∀ k, k ∈ l2 → k ∈ l) ∧
      (spliceRemove m hh).fresh = m.fresh ∧
      (∀ k, ((spliceRemove m hh).arena k).isSome = (m.arena k).isSome) := by
  obtain ⟨hch, hfst, hlst, hex, hnd⟩ := hA
  cases han : m.arena hh with
  | none =>
    have heq : spliceRemove m hh = m := by unfold spliceRemove; rw [han]
    rw [heq]
    have hnotin : hh ∉ l := by
      intro hmem
      have := AgeChain_isSome m l none none hh hch hmem
      rw [han] at this
      exact absurd this (by simp)
    exact ⟨l, ⟨hch, hfst, hlst, fun k hk => Or.inl (hex k hk), hnotin, hnd⟩,
      fun k hk => hk, rfl, fun k => rfl⟩
  | some n =>
    have hhmem : hh ∈ l := hex hh (by rw [han]; rfl)
    obtain ⟨l1, l2', hlsplit⟩ := List.append_of_mem hhmem
    subst hlsplit
    have hnds := List.nodup_append.mp hnd
    have hnd1 : l1.Nodup := hnds.1
    have hhnotin2 : hh ∉ l2' := (List.nodup_cons.mp hnds.2.1).1
    have hnd2 : l2'.Nodup := (List.nodup_cons.mp hnds.2.1).2
    have hdisj : l1.Disjoint (hh :: l2') := hnds.2.2
    have hhnotin1 : hh ∉ l1 := fun hmem => hdisj hmem (List.mem_cons_self hh l2')
    rw [AgeChain_append] at hch
    obtain ⟨hch1, hch2⟩ := hch
    obtain ⟨⟨n', hn', hnprev, hnnext⟩, hch3⟩ := hch2
    rw [han] at hn'
    injection hn' with hn'
    subst hn'
    have hfst' : m.first = headOr l1 (some hh) := by
      rw [hfst, headOr_append]; rfl
    have hlst' : m.last = lastOr l2' (some hh) := by
      rw [hlst, lastOr_append, lastOr_cons]
    rcases List.eq_nil_or_concat l1 with hl1nil | ⟨l1', p, hl1c⟩
    · subst hl1nil
      have hnp : n.prev = none := by rw [hnprev]; rfl
      cases hl2 : l2' with
      | nil =>
        subst hl2
        have hnn : n.next = none := by rw [hnnext]; rfl
        unfold spliceRemove
        rw [han]
        dsimp only
        rw [hnp, hnn]
        dsimp only
        rw [han]
        dsimp only
        rw [hnn, hnp]
        dsimp only
        refine ⟨[], ⟨trivial, rfl, rfl, ?_, by simp, by simp⟩, by simp, rfl, fun k => rfl⟩
        intro k hk
        have := hex k hk
        simp only [List.nil_append, List.mem_singleton] at this
        exact Or.inr this
      | cons q l2'' =>
        subst hl2
        have hnn : n.next = some q := by rw [hnnext]; rfl
        have hqmem : q ∈ (q :: l2'') := List.mem_cons_self q l2''
        have hqne : hh ≠ q := fun he => hhnotin2 (he ▸ hqmem)
        obtain ⟨nq, hnq⟩ : ∃ nq, m.arena q = some nq := by
          have := AgeChain_isSome m (q :: l2'') (some hh) none q hch3 hqmem
          cases hmq : m.arena q with
          | none => rw [hmq] at this; exact absurd this (by simp)
          | some x => exact ⟨x, rfl⟩
        have hqnotin2 : q ∉ l2'' := (List.nodup_cons.mp hnd2).1
        unfold spliceRemove
        rw [han]
        dsimp only
        rw [hnp, hnn]
        dsimp only
        have hsp1 : ∀ v : Option Nat,
            (setNodePrev { m with first := some q } q v).arena hh = some n := by
          intro v
          rw [setNodePrev_arena_other _ q hh v hqne]
          exact han
        rw [hsp1 none]
        dsimp only
        rw [hnn, hnp]
        dsimp only
        set ma : Monitor := { m with first := some q } with hma
        set mb := setNodePrev ma q none with hmb
        set r := setNodePrev { mb with prev_deleted := none } q none with hr
        have hrq : r.arena q = some { nq with prev := none } := by
          have h1 : mb.arena q = some { nq with prev := none } :=
            setNodePrev_arena_self ma q none nq hnq
          have h2 : ({ mb with prev_deleted := none } : Monitor).arena q =
              some { nq with prev := none } := h1
          have := setNodePrev_arena_self { mb with prev_deleted := none } q none
            { nq with prev := none } h2
          exact this
        have hrother : ∀ k, k ≠ q → r.arena k = m.arena k := by
          intro k hk
          rw [hr, setNodePrev_arena_other _ q k none hk]
          show mb.arena k = m.arena k
          rw [hmb, setNodePrev_arena_other ma q k none hk]
        have hriso : ∀ k, (r.arena k).isSome = (m.arena k).isSome := by
          intro k
          by_cases hk : k = q
          · subst hk; rw [hrq, hnq]; rfl
          · rw [hrother k hk]
        have hrfirst : r.first = some q := by
          rw [hr, setNodePrev_first]
          show mb.first = some q
          rw [hmb, setNodePrev_first]
        have hrlast : r.last = m.last := by
          rw [hr, setNodePrev_last]
          show mb.last = m.last
          rw [hmb, setNodePrev_last]
        have hrfresh : r.fresh = m.fresh := by
          rw [hr, setNodePrev_fresh]
          show mb.fresh = m.fresh
          rw [hmb, setNodePrev_fresh]
        refine ⟨q :: l2'', ⟨?_, ?_, ?_, ?_, ?_, hnd2⟩, ?_, hrfresh, hriso⟩
        · refine AgeChain_links_congr r _ (q :: l2'') none none
            (fun k _ n1 hn1 => ⟨n1, hn1, rfl, rfl⟩) ?_
          refine AgeChain_retarget_head m r q l2'' (some hh) none none hch3 ?_ ?_
          · intro nx hnx
            rw [hnq] at hnx
            injection hnx with hnx
            subst hnx
            exact hrq
          · intro k hk
            exact hrother k (fun he => hqnotin2 (he ▸ hk))
        · show r.first = headOr (q :: l2'') none
          rw [hrfirst]
          rfl
        · show r.last = lastOr (q :: l2'') none
          rw [hrlast, hlst', lastOr_cons, lastOr_cons]
        · intro k hk
          have hk' : (m.arena k).isSome := by rw [← hriso k]; exact hk
          have := hex k hk'
          simp only [List.nil_append, List.mem_cons] at this
          rcases this with h | h
          · exact Or.inr h
          · exact Or.inl (by simpa using h)
        · intro hmem
          rcases List.mem_cons.mp hmem with h | h
          · exact hqne h
          · exact hhnotin2 (List.mem_cons_of_mem q h)
        · intro k hk
          simp only [List.nil_append, List.mem_cons]
          exact Or.inr (List.mem_cons.mp hk)
    · rw [List.concat_eq_append] at hl1c
      subst hl1c
      have hnp : n.prev = some p := by rw [hnprev, lastOr_concat]
      have hpmem : p ∈ l1' ++ [p] := List.mem_append_right l1' (by simp)
      have hpne : hh ≠ p := fun he => hhnotin1 (he ▸ hpmem)
      have hpnotin1 : p ∉ l1' := by
        intro hmem
        rw [List.nodup_append] at hnd1
        exact hnd1.2.2 hmem (by simp)
      obtain ⟨np, hnp'⟩ : ∃ np, m.arena p = some np := by
        have := AgeChain_isSome m (l1' ++ [p]) none (some hh) p hch1 hpmem
        cases hmp : m.arena p with
        | none => rw [hmp] at this; exact absurd this (by simp)
        | some x => exact ⟨x, rfl⟩
      cases hl2 : l2' with
      | nil =>
        subst hl2
        have hnn : n.next = none := by rw [hnnext]; rfl
        unfold spliceRemove
        rw [han]
        dsimp only
        rw [hnp, hnn]
        dsimp only
        have hsp1 : (setNodeNext m p none).arena hh = some n := by
          rw [setNodeNext_arena_other _ p hh none hpne]
          exact han
        rw [hsp1]
        dsimp only
        rw [hnn, hnp]
        dsimp only
        set m1 := setNodeNext m p none with hm1
        set ma : Monitor := { m1 with prev_deleted := some p, last := some p } with hma
        set r := setNodeNext ma p none with hr
        have hm1p : m1.arena p = some { np with next := none } :=
          setNodeNext_arena_self m p none np hnp'
        have hrp : r.arena p = some { np with next := none } := by
          have h2 : ma.arena p = some { np with next := none } := hm1p
          have := setNodeNext_arena_self ma p none { np with next := none } h2
          exact this
        have hrother : ∀ k, k ≠ p → r.arena k = m.arena k := by
          intro k hk
          rw [hr, setNodeNext_arena_other _ p k none hk]
          show m1.arena k = m.arena k
          rw [hm1, setNodeNext_arena_other m p k none hk]
        have hriso : ∀ k, (r.arena k).isSome = (m.arena k).isSome := by
          intro k
          by_cases hk : k = p
          · subst hk; rw [hrp, hnp']; rfl
          · rw [hrother k hk]
        have hrfirst : r.first = m.first := by
          rw [hr, setNodeNext_first]
          show m1.first = m.first
          rw [hm1, setNodeNext_first]
        have hrfresh : r.fresh = m.fresh := by
          rw [hr, setNodeNext_fresh]
          show m1.fresh = m.fresh
          rw [hm1, setNodeNext_fresh]
        refine ⟨l1' ++ [p], ⟨?_, ?_, ?_, ?_, ?_, hnd1⟩, ?_, hrfresh, hriso⟩
        · refine AgeChain_links_congr r _ (l1' ++ [p]) none none
            (fun k _ n1 hn1 => ⟨n1, hn1, rfl, rfl⟩) ?_
          refine AgeChain_retarget_last m r l1' p none (some hh) none hch1 ?_ ?_
          · intro k hk
            exact hrother k (fun he => hpnotin1 (he ▸ hk))
          · intro nx hnx
            rw [hnp'] at hnx
            injection hnx with hnx
            subst hnx
            exact hrp
        · show r.first = headOr (l1' ++ [p]) none
          rw [hrfirst, hfst']
          exact headOr_of_ne_nil (l1' ++ [p]) (by simp) (some hh) none
        · show r.last = lastOr (l1' ++ [p]) none
          rw [hr, setNodeNext_last, lastOr_concat]
        · intro k hk
          have hk' : (m.arena k).isSome := by rw [← hriso k]; exact hk
          have := hex k hk'
          rcases List.mem_append.mp this with h | h
          · exact Or.inl h
          · simp only [List.mem_singleton] at h
            exact Or.inr h
        · exact hhnotin1
        · intro k hk
          exact List.mem_append_left _ hk
      | cons q l2'' =>
        subst hl2
        have hnn : n.next = some q := by rw [hnnext]; rfl
        have hqmem : q ∈ (q :: l2'') := List.mem_cons_self q l2''
        have hqne : hh ≠ q := fun he => hhnotin2 (he ▸ hqmem)
        have hpqne : q ≠ p := fun he => hdisj (he ▸ hpmem) (List.mem_cons_of_mem hh hqmem)
        obtain ⟨nq, hnq⟩ : ∃ nq, m.arena q = some nq := by
          have := AgeChain_isSome m (q :: l2'') (some hh) none q hch3 hqmem
          cases hmq : m.arena q with
          | none => rw [hmq] at this; exact absurd this (by simp)
          | some x => exact ⟨x, rfl⟩
        have hqnotin2 : q ∉ l2'' := (List.nodup_cons.mp hnd2).1
        unfold spliceRemove
        rw [han]
        dsimp only
        rw [hnp, hnn]
        dsimp only
        have hsp1 : (setNodeNext m p (some q)).arena hh = some n := by
          rw [setNodeNext_arena_other _ p hh _ hpne]
          exact han
        rw [hsp1]
        dsimp only
        rw [hnn, hnp]
        dsimp only
        set m1 := setNodeNext m p (some q) with hm1
        set ma : Monitor := { m1 with prev_deleted := some p } with hma
        set r := setNodePrev ma q (some p) with hr
        have hm1p : m1.arena p = some { np with next := some q } :=
          setNodeNext_arena_self m p (some q) np hnp'
        have hm1q : m1.arena q = some nq := by
          rw [hm1, setNodeNext_arena_other m p q _ hpqne]
          exact hnq
        have hrp : r.arena p = some { np with next := some q } := by
          rw [hr, setNodePrev_arena_other ma q p _ (fun he => hpqne he.symm)]
          exact hm1p
        have hrq : r.arena q = some { nq with prev := some p } := by
          have h2 : ma.arena q = some nq := hm1q
          exact setNodePrev_arena_self ma q (some p) nq h2
        have hrother : ∀ k, k ≠ p → k ≠ q → r.arena k = m.arena k := by
          intro k hkp hkq
          rw [hr, setNodePrev_arena_other ma q k _ hkq]
          show m1.arena k = m.arena k
          rw [hm1, setNodeNext_arena_other m p k _ hkp]
        have hriso : ∀ k, (r.arena k).isSome = (m.arena k).isSome := by
          intro k
          by_cases hkp : k = p
          · subst hkp; rw [hrp, hnp']; rfl
          · by_cases hkq : k = q
            · subst hkq; rw [hrq, hnq]; rfl
            · rw [hrother k hkp hkq]
        have hql1 : q ∉ l1' ++ [p] := fun hmem =>
          hdisj hmem (List.mem_cons_of_mem hh hqmem)
        have hrfirst : r.first = m.first := by
          rw [hr, setNodePrev_first]
          show m1.first = m.first
          rw [hm1, setNodeNext_first]
        have hrlast : r.last = m.last := by
          rw [hr, setNodePrev_last]
          show m1.last = m.last
          rw [hm1, setNodeNext_last]
        have hrfresh : r.fresh = m.fresh := by
          rw [hr, setNodePrev_fresh]
          show m1.fresh = m.fresh
          rw [hm1, setNodeNext_fresh]
        have hsub : List.Sublist ((l1' ++ [p]) ++ q :: l2'')
            ((l1' ++ [p]) ++ hh :: q :: l2'') :=
          List.Sublist.append_left (List.sublist_cons_self hh (q :: l2'')) (l1' ++ [p])
        refine ⟨(l1' ++ [p]) ++ q :: l2'', ⟨?_, ?_, ?_, ?_, ?_, hnd.sublist hsub⟩, ?_,
          hrfresh, hriso⟩
        · refine AgeChain_links_congr r _ ((l1' ++ [p]) ++ q :: l2'') none none
            (fun k _ n1 hn1 => ⟨n1, hn1, rfl, rfl⟩) ?_
          rw [AgeChain_append]
          constructor
          · refine AgeChain_retarget_last m r l1' p none (some hh)
              (headOr (q :: l2'') none) hch1 ?_ ?_
            · intro k hk
              refine hrother k (fun he => hpnotin1 (he ▸ hk)) (fun he => ?_)
              exact hql1 (List.mem_append_left _ (he ▸ hk))
            · intro nx hnx
              rw [hnp'] at hnx
              injection hnx with hnx
              subst hnx
              exact hrp
          · rw [lastOr_concat]
            refine AgeChain_retarget_head m r q l2'' (some hh) (some p) none hch3 ?_ ?_
            · intro nx hnx
              rw [hnq] at hnx
              injection hnx with hnx
              subst hnx
              exact hrq
            · intro k hk
              refine hrother k (fun he => ?_) (fun he => hqnotin2 (he ▸ hk))
              exact hdisj hpmem (List.mem_cons_of_mem hh (List.mem_cons_of_mem q (he ▸ hk)))
        · show r.first = headOr ((l1' ++ [p]) ++ q :: l2'') none
          rw [hrfirst, hfst']
          cases l1' <;> rfl
        · show r.last = lastOr ((l1' ++ [p]) ++ q :: l2'') none
          rw [hrlast, hlst', lastOr_append, lastOr_cons, lastOr_cons]
        · intro k hk
          have hk' : (m.arena k).isSome := by rw [← hriso k]; exact hk
          have := hex k hk'
          rcases List.mem_append.mp this with h | h
          · exact Or.inl (List.mem_append_left _ h)
          · rcases List.mem_cons.mp h with h | h
            · exact Or.inr h
            · exact Or.inl (List.mem_append_right _ h)
        · intro hmem
          rcases List.mem_append.mp hmem with h | h
          · exact hhnotin1 h
          · exact hhnotin2 h
        · intro k hk
          rcases List.mem_append.mp hk with h | h
          · exact List.mem_append_left _ h
          · exact List.mem_append_right _ (List.mem_cons_of_mem hh h)

theorem destroySlots_ageinv (destroyChild : Monitor → Nat → Monitor)
    (hD : ∀ m ch, AgeInv m → AgeInv (destroyChild m ch)) (h : Nat) :
    ∀ (li : List Nat) (m : Monitor), AgeInv m → AgeInv (destroySlots destroyChild h li m) := by
  intro li
  induction li with
  | nil => intro m hinv; exact hinv
  | cons i rest ih =>
    intro m hinv
    simp only [destroySlots]
    cases hgc : getCounter m h i with
    | none => exact ih m hinv
    | some c =>
      dsimp only
      cases c.next_level with
      | some ch =>
        dsimp only
        exact ih _ (AgeInv_setCounter _ _ _ _ (AgeInv_of_sameShape _ _
          (sameShape_update_alloced _ _) (hD m ch hinv)))
      | none =>
        dsimp only
        exact ih _ (AgeInv_setCounter _ _ _ _ (AgeInv_of_sameShape _ _
          (sameShape_update_alloced _ _) hinv))

theorem removeNode_arena_self (m : Monitor) (h : Nat) :
    (removeNode m h).arena h = none := by
  unfold removeNode
  dsimp only
  rw [Function.update_same]

theorem removeNode_arena_other (m : Monitor) (h k : Nat) (hne : k ≠ h) :
    (removeNode m h).arena k = m.arena k := by
  unfold removeNode
  dsimp only
  rw [Function.update_noteq hne]

theorem destroyStats_ageinv (fuel : Nat) :
    ∀ (m : Monitor) (h : Nat), AgeInv m → AgeInv (destroyStats fuel m h) := by
  induction fuel with
  | zero => intro m h hinv; exact hinv
  | succ fuel ih =>
    intro m h hinv
    simp only [destroyStats]
    cases ham : m.arena h with
    | none => exact hinv
    | some n =>
      dsimp only
      have h1 : AgeInv (destroySlots (destroyStats fuel) h (List.range MAX_COUNTERS) m) :=
        destroySlots_ageinv (destroyStats fuel) (fun m2 ch hm => ih m2 ch hm) h _ m hinv
      set m1 := destroySlots (destroyStats fuel) h (List.range MAX_COUNTERS) m with hm1
      obtain ⟨l, hA, hfb⟩ := h1
      obtain ⟨l2, hexc2, hsub, hfr, hiso⟩ := spliceRemove_except m1 h l hA
      set m2 := spliceRemove m1 h with hm2
      have hshape : SameShape m2
          (update_alloced_mem (clearParentLink m2 h) (-(szStats : Int))) :=
        sameShape_trans m2 _ _ (sameShape_clearParentLink m2 h)
          (sameShape_update_alloced _ _)
      set m3 := update_alloced_mem (clearParentLink m2 h) (-(szStats : Int)) with hm3
      have hexc3 : AgeListExcept m3 l2 h :=
        AgeListExcept_of_sameShape m2 m3 l2 h hshape hexc2
      obtain ⟨hch3, hfst3, hlst3, hex3, hnm3, hnd3⟩ := hexc3
      refine ⟨l2, ⟨?_, hfst3, hlst3, ?_, hnd3⟩, ?_⟩
      · refine AgeChain_links_congr m3 _ l2 none none ?_ hch3
        intro k hk n1 hn1
        refine ⟨n1, ?_, rfl, rfl⟩
        show (removeNode m3 h).arena k = some n1
        rw [removeNode_arena_other m3 h k (fun he => hnm3 (he ▸ hk))]
        exact hn1
      · intro k hk
        have hkne : k ≠ h := by
          intro he
          subst he
          rw [show ((removeNode m3 k).arena k) = none from removeNode_arena_self m3 k] at hk
          exact absurd hk (by simp)
        have hk3 : (m3.arena k).isSome := by
          rw [show ((removeNode m3 h).arena k) = m3.arena k from
            removeNode_arena_other m3 h k hkne] at hk
          exact hk
        rcases hex3 k hk3 with hmem | he
        · exact hmem
        · exact absurd he hkne
      · intro k hk
        have hkfr : m1.fresh ≤ k := by
          have e2 : m3.fresh = m2.fresh := hshape.2.2.1
          have e1 : (removeNode m3 h).fresh = m3.fresh := rfl
          rw [e1, e2, hfr] at hk
          exact hk
        by_cases hkh : k = h
        · subst hkh
          exact removeNode_arena_self m3 k
        · rw [removeNode_arena_other m3 h k hkh]
          have hnone1 : m1.arena k = none := hfb k hkfr
          have hiso3 : (m3.arena k).isSome = (m1.arena k).isSome := by
            rw [hshape.2.2.2.1 k, hiso k]
          rw [hnone1] at hiso3
          cases hm3k : m3.arena k with
          | none => rfl
          | some x => rw [hm3k] at hiso3; exact absurd hiso3 (by simp)

theorem make_counter_ageinv (m : Monitor) (sh idx : Nat) (f r : Option MyEWMA)
    (hinv : AgeInv m) : AgeInv (make_counter m sh idx f r).2 :=
  AgeInv_of_sameShape m _ (sameShape_make_counter m sh idx f r) hinv

theorem updateLevelsZoom_ageinv (ks : List Nat) (m2 : Monitor) (sh : Nat)
    (addr : Nat → Nat) (k : Nat) (c1 : Counter) (hinv : AgeInv m2) :
    AgeInv (updateLevelsZoom ks m2 sh addr k c1) := by
  unfold updateLevelsZoom
  split
  · exact AgeInv_setCounter _ _ _ _ (AgeInv_of_sameShape _ _
      (sameShape_setParent _ _ _) (AgeInv_alloc m2 hinv))
  · exact hinv

theorem updateLevelsBody_ageinv
    (recurse : Monitor → Nat → Option (MyEWMA × MyEWMA) → Monitor)
    (hrec : ∀ m ch pr, AgeInv m → AgeInv (recurse m ch pr))
    (ks : List Nat) (m1 : Monitor) (sh : Nat) (addr : Nat → Nat) (fw : Bool)
    (val now k : Nat) (c : Counter) (hinv : AgeInv m1) :
    AgeInv (updateLevelsBody recurse ks m1 sh addr fw val now k c) := by
  unfold updateLevelsBody
  dsimp only
  generalize (if fw then { c with fwd_rate := c.fwd_rate.update now val }
              else { c with rev_rate := c.rev_rate.update now val }) = c1
  have hinv2 := AgeInv_setCounter m1 sh (addr k) (some c1) hinv
  split
  · exact hinv2
  · have hinv3 := updateLevelsZoom_ageinv ks _ sh addr k c1 hinv2
    split
    · split
      · exact hrec _ _ _ hinv3
      · exact hinv3
    · exact hinv3

theorem updateLevels_ageinv :
    ∀ (ks : List Nat) (m : Monitor) (sh : Nat) (addr : Nat → Nat) (fw : Bool)
      (val now : Nat) (pr : Option (MyEWMA × MyEWMA)),
      AgeInv m → AgeInv (updateLevels ks m sh addr fw val now pr) := by
  intro ks
  induction ks with
  | nil => intro m _ _ _ _ _ _ h; exact h
  | cons k ks ih =>
    intro m sh addr fw val now pr hinv
    simp only [updateLevels]
    cases hgc : getCounter m sh (addr k) with
    | some c =>
      dsimp only
      exact updateLevelsBody_ageinv _ (fun m3 ch pr2 hm => ih m3 ch addr fw val now pr2 hm)
        ks m sh addr fw val now k c hinv
    | none =>
      dsimp only
      cases hmk : make_counter m sh (addr k) (pr.map fun prr => prr.1)
          (pr.map fun prr => prr.2) with
      | mk fst snd =>
        cases fst with
        | none =>
          dsimp only
          have hmc := make_counter_ageinv m sh (addr k) (pr.map fun prr => prr.1)
            (pr.map fun prr => prr.2) hinv
          rw [hmk] at hmc
          exact hmc
        | some c =>
          dsimp only
          have hmc := make_counter_ageinv m sh (addr k) (pr.map fun prr => prr.1)
            (pr.map fun prr => prr.2) hinv
          rw [hmk] at hmc
          exact updateLevelsBody_ageinv _
            (fun m3 ch pr2 hm => ih m3 ch addr fw val now pr2 hm)
            ks snd sh addr fw val now k c hmc

theorem annoLevelsBody_ageinv (recurse : Monitor → Nat → Monitor)
    (hrec : ∀ m ch, AgeInv m → AgeInv (recurse m ch))
    (m1 : Monitor) (sh : Nat) (addr : Nat → Nat) (level whenT k : Nat) (c : Counter)
    (hinv : AgeInv m1) :
    AgeInv (annoLevelsBody recurse m1 sh addr level whenT k c) := by
  unfold annoLevelsBody
  dsimp only
  split
  · exact AgeInv_setCounter m1 sh (addr k) _ hinv
  · have hinv2 : AgeInv (if c.next_level = none ∧
        (m1.memmax = 0 ∨ m1.alloced_mem + (szStats : Int) ≤ (m1.memmax : Int)) then
          setCounter (setParent (appendTail (newStats m1).2 (newStats m1).1)
            (newStats m1).1 (sh, addr k)) sh (addr k)
            (some { c with next_level := some (newStats m1).1 })
        else m1) := by
      split
      · exact AgeInv_setCounter _ _ _ _ (AgeInv_of_sameShape _ _
          (sameShape_setParent _ _ _) (AgeInv_alloc m1 hinv))
      · exact hinv
    split
    · split
      · exact hrec _ _ hinv2
      · exact hinv2
    · exact hinv2

theorem annoLevels_ageinv :
    ∀ (ks : List Nat) (level : Nat) (m : Monitor) (sh : Nat) (addr : Nat → Nat)
      (whenT : Nat), AgeInv m → AgeInv (annoLevels ks level m sh addr whenT) := by
  intro ks
  induction ks with
  | nil => intro _ m _ _ _ h; exact h
  | cons k ks ih =>
    intro level m sh addr whenT hinv
    simp only [annoLevels]
    cases hgc : getCounter m sh (addr k) with
    | some c =>
      dsimp only
      exact annoLevelsBody_ageinv _ (fun m2 ch hm => ih level m2 ch addr whenT hm)
        m sh addr level whenT k c hinv
    | none =>
      dsimp only
      cases hmk : make_counter m sh (addr k) none none with
      | mk fst snd =>
        cases fst with
        | none =>
          dsimp only
          have hmc := make_counter_ageinv m sh (addr k) none none hinv
          rw [hmk] at hmc
          exact hmc
        | some c =>
          dsimp only
          have hmc := make_counter_ageinv m sh (addr k) none none hinv
          rw [hmk] at hmc
          exact annoLevelsBody_ageinv _ (fun m2 ch hm => ih level m2 ch addr whenT hm)
            snd sh addr level whenT k c hmc

theorem foldStep_ageinv (m : Monitor) (s : Nat) (fwdDir : Bool) (thresh : Int)
    (now : Nat) (eff : Int) (hinv : AgeInv m) :
    AgeInv (foldStep m s fwdDir thresh now eff).1 := by
  unfold foldStep
  cases hs : m.arena s with
  | none => exact hinv
  | some n =>
    dsimp only
    cases hp : n.parent with
    | none => exact hinv
    | some pc =>
      dsimp only
      cases hc : getCounter m pc.1 pc.2 with
      | none => exact hinv
      | some c =>
        dsimp only
        have h1 := AgeInv_setCounter m pc.1 pc.2
          (some { c with fwd_rate := c.fwd_rate.update now 0 }) hinv
        split
        · have h2 := AgeInv_setCounter _ pc.1 pc.2
            (some { c with fwd_rate := c.fwd_rate.update now 0,
                           rev_rate := c.rev_rate.update now 0 }) h1
          split
          · split
            · exact destroyStats_ageinv _ _ s h2
            · exact destroyStats_ageinv _ _ s h2
          · exact h2
        · exact h1

theorem foldGo_ageinv (fuel : Nat) :
    ∀ (m : Monitor) (s : Nat) (fwdDir : Bool) (thresh : Int) (now : Nat) (eff : Int),
      AgeInv m → AgeInv (foldGo fuel m s fwdDir thresh now eff) := by
  induction fuel with
  | zero => intro m _ _ _ _ _ h; exact h
  | succ fuel ih =>
    intro m s fwdDir thresh now eff hinv
    simp only [foldGo]
    cases hn : (foldStep m s fwdDir thresh now eff).2 with
    | none => exact foldStep_ageinv m s fwdDir thresh now eff hinv
    | some s2 =>
      exact ih _ s2 fwdDir thresh now eff (foldStep_ageinv m s fwdDir thresh now eff hinv)

theorem fold_ageinv (fuel : Nat) (fwdDir : Bool) (now : Nat) (thresh : Int)
    (m : Monitor) (hinv : AgeInv m) : AgeInv (fold fuel fwdDir now thresh m) := by
  unfold fold
  dsimp only
  have hinv0 : AgeInv { m with prev_deleted := none, next_deleted := none } :=
    AgeInv_of_sameShape m _ ⟨rfl, rfl, rfl, fun _ => rfl,
      fun _ n1 hn => ⟨n1, hn, rfl, rfl⟩⟩ hinv
  cases he : (if fwdDir then m.first else m.last) with
  | none => exact hinv0
  | some s => exact foldGo_ageinv fuel _ s fwdDir thresh now _ hinv0

theorem forced_fold_loop_ageinv (fuel : Nat) :
    ∀ (dirs : Nat → Bool) (now : Nat) (thresh perc : Int) (m m2 : Monitor),
      forced_fold_loop fuel dirs now thresh perc m = some m2 → AgeInv m → AgeInv m2 := by
  induction fuel with
  | zero =>
    intro dirs now thresh perc m m2 hsome hinv
    simp only [forced_fold_loop] at hsome
    split at hsome
    · exact absurd hsome (by simp)
    · injection hsome with hsome
      subst hsome
      exact hinv
  | succ fuel ih =>
    intro dirs now thresh perc m m2 hsome hinv
    simp only [forced_fold_loop] at hsome
    split at hsome
    · exact ih dirs now (thresh + perc) perc _ m2 hsome
        (fold_ageinv (2 * liveCount m + 2) (dirs fuel) now thresh m hinv)
    · injection hsome with hsome
      subst hsome
      exact hinv

theorem memmax_write_ageinv (arg fuel : Nat) (dirs : Nat → Bool) (now : Nat)
    (m m2 : Monitor) (hw : memmax_write arg fuel dirs now m = some m2)
    (hinv : AgeInv m) : AgeInv m2 := by
  unfold memmax_write forced_fold at hw
  dsimp only at hw
  split at hw <;> split at hw
  all_goals first
    | exact forced_fold_loop_ageinv fuel dirs now _ _ _ m2 hw
        (AgeInv_of_sameShape m _ ⟨rfl, rfl, rfl, fun _ => rfl,
          fun _ n1 hn => ⟨n1, hn, rfl, rfl⟩⟩ hinv)
    | (injection hw with hw
       subst hw
       exact AgeInv_of_sameShape m _ ⟨rfl, rfl, rfl, fun _ => rfl,
         fun _ n1 hn => ⟨n1, hn, rfl, rfl⟩⟩ hinv)

theorem printArSlots_ageinv (printChild : Monitor → Nat → Monitor)
    (hP : ∀ m ch, AgeInv m → AgeInv (printChild m ch)) (now h : Nat) :
    ∀ (l : List Nat) (m : Monitor), AgeInv m → AgeInv (printArSlots printChild now h l m) := by
  intro l
  induction l with
  | nil => intro m hinv; exact hinv
  | cons i rest ih =>
    intro m hinv
    simp only [printArSlots]
    cases hc : getCounter m h i with
    | none => exact ih m hinv
    | some c =>
      dsimp only
      split
      · split
        · exact ih _ (hP _ _ (AgeInv_setCounter m h i _ hinv))
        · exact ih _ (AgeInv_setCounter m h i _ hinv)
      · exact ih m hinv

theorem printAr_ageinv (fuel : Nat) :
    ∀ (now : Nat) (m : Monitor) (h : Nat), AgeInv m → AgeInv (printAr fuel now m h) := by
  induction fuel with
  | zero => intro now m h hinv; exact hinv
  | succ fuel ih =>
    intro now m h hinv
    simp only [printAr]
    exact printArSlots_ageinv (printAr fuel now) (fun m2 ch => ih now m2 ch) now h
      (List.range MAX_COUNTERS) m hinv

theorem lookOp_ageinv (m : Monitor) (lockFree : Bool) (now : Nat) (hinv : AgeInv m) :
    AgeInv (lookOp m lockFree now) := by
  unfold lookOp
  split
  · split
    · exact printAr_ageinv _ now m _ hinv
    · exact hinv
  · exact hinv

theorem resetSlots_ageinv :
    ∀ (l : List Nat) (m : Monitor), AgeInv m → AgeInv (resetSlots l m) := by
  intro l
  induction l with
  | nil => intro m hinv; exact hinv
  | cons i rest ih =>
    intro m hinv
    simp only [resetSlots]
    cases hb : m.base with
    | none => exact ih m hinv
    | some b =>
      dsimp only
      cases hc : getCounter m b i with
      | none => exact ih m hinv
      | some c =>
        dsimp only
        cases hnl : c.next_level with
        | none =>
          dsimp only
          exact ih _ (AgeInv_setCounter m b i none hinv)
        | some ch =>
          dsimp only
          exact ih _ (AgeInv_setCounter _ b i none (destroyStats_ageinv _ m ch hinv))

theorem resetOp_ageinv (now : Nat) (m : Monitor) (hinv : AgeInv m) :
    AgeInv (resetOp now m) := by
  unfold resetOp
  exact AgeInv_of_sameShape (resetSlots (List.range MAX_COUNTERS) m) _
    ⟨rfl, rfl, rfl, fun _ => rfl, fun _ n1 hn => ⟨n1, hn, rfl, rfl⟩⟩
    (resetSlots_ageinv (List.range MAX_COUNTERS) m hinv)

theorem ageinv_step (m m2 : Monitor) (hs : Step m m2) (hinv : AgeInv m) : AgeInv m2 := by
  cases hs with
  | push p port0 ew now =>
    unfold pushOp update_rates
    dsimp only
    repeat' split
    all_goals first
      | exact updateLevels_ageinv [0, 1, 2, 3] _ _ _ _ _ _ _
          (updateLevels_ageinv [0, 1, 2, 3] _ _ _ _ _ _ _ hinv)
      | exact hinv
  | pull p port0 now =>
    unfold pullOp update_rates
    dsimp only
    repeat' split
    all_goals first
      | exact updateLevels_ageinv [0, 1, 2, 3] _ _ _ _ _ _ _
          (updateLevels_ageinv [0, 1, 2, 3] _ _ _ _ _ _ _ hinv)
      | exact hinv
  | look lockFree now => exact lookOp_ageinv m lockFree now hinv
  | reset now => exact resetOp_ageinv now m hinv
  | memmaxW _ arg fuel dirs now hw => exact memmax_write_ageinv arg fuel dirs now m m2 hw hinv
  | annoW addr level whenS now =>
    unfold anno_level_write
    repeat' split
    all_goals first
      | exact annoLevels_ageinv [0, 1, 2, 3] level _ _ addr _ hinv
      | exact hinv

theorem configure_struct (m : Monitor) (args : List CPToken) :
    (configure m args).2.arena = m.arena ∧ (configure m args).2.first = m.first ∧
    (configure m args).2.last = m.last ∧ (configure m args).2.fresh = m.fresh := by
  unfold configure
  match args with
  | .word w :: .num off :: .fixed16 r :: .num th :: rest4 =>
    match rest4 with
    | [] =>
      dsimp only
      repeat' split
      all_goals exact ⟨rfl, rfl, rfl, rfl⟩
    | [.num mm] =>
      dsimp only
      repeat' split
      all_goals exact ⟨rfl, rfl, rfl, rfl⟩
    | [.num mm, .boolTok b] =>
      dsimp only
      repeat' split
      all_goals exact ⟨rfl, rfl, rfl, rfl⟩
    | .num mm :: .word x :: t | .num mm :: .num x :: t | .num mm :: .fixed16 x :: t
    | .num mm :: .boolTok x :: y :: t => exact ⟨rfl, rfl, rfl, rfl⟩
    | .word x :: t | .fixed16 x :: t | .boolTok x :: t => exact ⟨rfl, rfl, rfl, rfl⟩
  | [] | .num x :: t | .fixed16 x :: t | .boolTok x :: t => exact ⟨rfl, rfl, rfl, rfl⟩
  | .word x :: [] | .word x :: .word y :: t | .word x :: .fixed16 y :: t
  | .word x :: .boolTok y :: t => exact ⟨rfl, rfl, rfl, rfl⟩
  | .word x :: .num y :: [] | .word x :: .num y :: .word z :: t
  | .word x :: .num y :: .num z :: t | .word x :: .num y :: .boolTok z :: t =>
    exact ⟨rfl, rfl, rfl, rfl⟩
  | .word x :: .num y :: .fixed16 z :: [] | .word x :: .num y :: .fixed16 z :: .word u :: t
  | .word x :: .num y :: .fixed16 z :: .fixed16 u :: t
  | .word x :: .num y :: .fixed16 z :: .boolTok u :: t => exact ⟨rfl, rfl, rfl, rfl⟩

theorem preInit_struct (m : Monitor) (h : PreInit m) :
    m.arena = init0.arena ∧ m.first = none ∧ m.last = none ∧ m.fresh = 0 := by
  induction h with
  | start => exact ⟨rfl, rfl, rfl, rfl⟩
  | conf m args _ ih =>
    obtain ⟨h1, h2, h3, h4⟩ := configure_struct m args
    exact ⟨h1.trans ih.1, h2.trans ih.2.1, h3.trans ih.2.2.1, h4.trans ih.2.2.2⟩

theorem ageinv_initialize (now : Nat) (m : Monitor) (ha : m.arena = init0.arena)
    (hl : m.last = none) (hfr : m.fresh = 0) : AgeInv (initializeOp now m) := by
  refine ⟨[(newStats { m with resettime := now }).1],
    ⟨⟨⟨{ parent := none, prev := none, next := none, counter := fun _ => none }, ?_,
      rfl, rfl⟩, trivial⟩, rfl, rfl, ?_, by simp⟩, ?_⟩
  · exact newStats_arena_self { m with resettime := now }
  · intro k hk
    by_cases hkf : k = m.fresh
    · simp only [List.mem_singleton]
      exact hkf
    · exfalso
      have hk' : ((newStats { m with resettime := now }).2.arena k).isSome := hk
      rw [newStats_arena_other { m with resettime := now } k hkf] at hk'
      have : m.arena k = none := by rw [ha]; rfl
      rw [show ({ m with resettime := now } : Monitor).arena k = m.arena k from rfl,
        this] at hk'
      exact absurd hk' (by simp)
  · intro k hk
    have hk2 : m.fresh + 1 ≤ k := hk
    have hkf : k ≠ m.fresh := by omega
    show (newStats { m with resettime := now }).2.arena k = none
    rw [newStats_arena_other { m with resettime := now } k hkf]
    show m.arena k = none
    rw [ha]
    rfl

theorem ageinv_reachable (m : Monitor) (hr : Reachable m) : AgeInv m := by
  induction hr with
  | init now m0 args hpre _ =>
    obtain ⟨h1, h2, h3, h4⟩ := preInit_struct m0 hpre
    obtain ⟨g1, g2, g3, g4⟩ := configure_struct m0 args
    exact ageinv_initialize now _ (g1.trans h1) (g3.trans h3) (g4.trans h4)
  | step ma mb _ hs ih => exact ageinv_step ma mb hs ih

/-- Claim C2 (corrected): at every reachable state after initialization
the age-list is a well-formed doubly-linked list from `_first` to
`_last` that holds exactly the set of live nodes, each once - the root
included: whenever the root node is live it is on the age-list, contrary
to the claim that the root is never an element. -/
theorem claim2_amended (m : Monitor) (hr : Reachable m) :
    ∃ l : List Nat, AgeChain m none l none ∧ m.first = headOr l none ∧
      m.last = lastOr l none ∧ l.Nodup ∧
      (∀ k, (m.arena k).isSome ↔ k ∈ l) ∧
      (∀ b, m.base = some b → (m.arena b).isSome → b ∈ l) := by
  obtain ⟨l, ⟨hch, hfst, hlst, hex, hnd⟩, _⟩ := ageinv_reachable m hr
  exact ⟨l, hch, hfst, hlst, hnd,
    fun k => ⟨hex k, fun hk => AgeChain_isSome m l none none k hch hk⟩,
    fun b _ hb => hex b hb⟩

/-- Configuration used by the claim C2 counterexample and witness:
packet counting, offset 0, ratio 1.0, threshold 10, no memory cap. -/
def c2Args : List CPToken :=
  [.word "PACKETS", .num 0, .fixed16 0x10000, .num 10]

/-- Counterexample to claim C2 as stated: immediately after `initialize`
the root node (handle 0, stored in `_base`) is live and `_first` points
at it, so the root is the head of the age-list - the claim says the root
is never an element of the age-list, including immediately after
initialize. The source sets `_first = _last = _base` (ipratemon.cc line
97). -/
theorem claim2_counterexample :
    (initializeOp 5 (configure init0 c2Args).2).base = some 0 ∧
    (initializeOp 5 (configure init0 c2Args).2).first = some 0 ∧
    (initializeOp 5 (configure init0 c2Args).2).last = some 0 ∧
    ((initializeOp 5 (configure init0 c2Args).2).arena 0).isSome := by
  refine ⟨?_, ?_, ?_, ?_⟩ <;> decide

/-- Witness for claim C2 on a concrete trace: configure then initialize. -/
theorem claim2_witness :
    ∃ l : List Nat,
      AgeChain (initializeOp 5 (configure init0 c2Args).2) none l none ∧
      (initializeOp 5 (configure init0 c2Args).2).first = headOr l none ∧
      (initializeOp 5 (configure init0 c2Args).2).last = lastOr l none ∧
      l.Nodup ∧
      (∀ k, ((initializeOp 5 (configure init0 c2Args).2).arena k).isSome ↔ k ∈ l) ∧
      (∀ b, (initializeOp 5 (configure init0 c2Args).2).base = some b →
        ((initializeOp 5 (configure init0 c2Args).2).arena b).isSome → b ∈ l) :=
  claim2_amended (initializeOp 5 (configure init0 c2Args).2)
    (Reachable.init 5 init0 c2Args PreInit.start (by decide))

end RateMon